import Mathlib

/-!
# Quiz session state machine (src/src/App.jsx)

A shallow embedding of the quiz application: the `QuizProvider` state with its
operations, the `StorageManager` event log, the timer effect and the start page
validation, followed by theorems about them.

Modelling conventions.
* JavaScript numbers that only ever hold integers are `Int` (indices, seconds)
  or `Nat` (lengths, counts, epoch milliseconds).
* The `answers` object is looked up by key only, so it is a function from keys
  to optional values: `none` is a missing key (`undefined`).
* A `Set` of numbers is a `Finset Int`.
* Every handler runs to completion on the state of the latest render, so a
  handler is a function from the state before to the state after.
* `Date.now()` and `new Date()` are read once per handler call and passed in as
  `now` (epoch milliseconds).
-/

namespace QuizApp

/-! ## Data model -/

/-- A processed question record, as stored in the `questions` state. -/
structure Question where
  question : String
  correctAnswer : String
  allAnswers : List String
  category : String
  difficulty : String
  type : String
  deriving DecidableEq, Repr

/-- The three values taken by `currentPage`. -/
inductive Page where
  | start
  | quiz
  | results
  deriving DecidableEq, Repr

/-- The state held by `QuizProvider` (lines 105-114). -/
structure QuizState where
  email : String
  questions : List Question
  currentQuestionIndex : Int
  answers : Int → Option String
  visitedQuestions : Finset Int
  timeRemaining : Int
  quizStartTime : Option Nat
  isLoading : Bool
  error : Option String
  currentPage : Page

/-- The initial values of the `useState` calls (lines 105-114). -/
def initialState : QuizState where
  email := ""
  questions := []
  currentQuestionIndex := 0
  answers := fun _ => none
  visitedQuestions := {0}
  timeRemaining := 30 * 60
  quizStartTime := none
  isLoading := false
  error := none
  currentPage := Page.start

/-! ## Event log (StorageManager) -/

/-- One element of the array kept under the key `quiz_logs`, after `addLog`
has added the `timestamp` field. The constructor is the `type` field. -/
inductive LogEntry where
  | quiz_start (email : String) (action : String) (timestamp : Nat)
  | answer_saved (email : String) (questionIndex : Nat) (question : String)
      (selectedAnswer : String) (correctAnswer : String) (isCorrect : Bool)
      (timestamp : Nat)
  | quiz_completed (email : String) (score : Nat) (totalQuestions : Nat)
      (percentage : String) (timeTaken : Int) (timestamp : Nat)
  deriving DecidableEq, Repr

/-- The argument of `addLog`: a log record before the timestamp is added. -/
abbrev LogRecord := Nat → LogEntry

/-- What `JSON.parse` makes of a stored string that parses. -/
inductive Parsed where
  | array (entries : List LogEntry)
  | notArray
  deriving DecidableEq, Repr

/-- The content of `localStorage` under `STORAGE_KEY`, classified by what
`getItem` and `JSON.parse` do with it. -/
inductive Stored where
  | absent
  | unparsable
  | parsed (value : Parsed)
  deriving DecidableEq, Repr

namespace StorageManager

/-- Lines 32-40: a missing key and a parse error both read as `[]`; any value
that parses is returned as it is. -/
def getLogs (store : Stored) : Parsed :=
  match store with
  | Stored.absent => Parsed.array []
  | Stored.unparsable => Parsed.array []
  | Stored.parsed v => v

/-- Lines 42-53: read, push the stamped entry, write back. When the value read
is not an array, `push` throws, the error is caught and nothing is written. -/
def addLog (now : Nat) (logEntry : LogRecord) (store : Stored) : Stored :=
  match getLogs store with
  | Parsed.array logs => Stored.parsed (Parsed.array (logs ++ [logEntry now]))
  | Parsed.notArray => store

/-- Lines 55-61. -/
def saveQuizStart (now : Nat) (email : String) (store : Stored) : Stored :=
  addLog now (LogEntry.quiz_start email "Quiz started") store

/-- Lines 63-73: `isCorrect` compares the logged selection with the answer. -/
def saveAnswer (now : Nat) (email : String) (questionIndex : Nat) (question : String)
    (selectedAnswer : String) (correctAnswer : String) (store : Stored) : Stored :=
  addLog now
    (LogEntry.answer_saved email questionIndex question selectedAnswer correctAnswer
      (decide (selectedAnswer = correctAnswer)))
    store

end StorageManager

/-! ## Numbers: `score / totalQuestions * 100` and `toFixed(2)` -/

/-- The integer nearest to a rational, a tie going to the even neighbour: the
rounding of an IEEE-754 significand. -/
def roundHalfEven (x : ℚ) : ℤ :=
  if x - ⌊x⌋ < 1 / 2 then ⌊x⌋
  else if 1 / 2 < x - ⌊x⌋ then ⌊x⌋ + 1
  else if ⌊x⌋ % 2 = 0 then ⌊x⌋ else ⌊x⌋ + 1

/-- The binary64 number nearest to a rational (round to nearest, ties to even),
for magnitudes below `2 ^ 1024`: 53 significant bits, and a fixed spacing of
`2 ^ (-1074)` below `2 ^ (-1022)`. Every JavaScript arithmetic operation returns
the exact result rounded in this way. -/
def roundToDouble (q : ℚ) : ℚ :=
  if q = 0 then 0
  else roundHalfEven (q / 2 ^ (max (Int.log 2 |q|) (-1022) - 52)) *
    2 ^ (max (Int.log 2 |q|) (-1022) - 52)

/-- The decimal rendering of `h` hundredths with two fraction digits. -/
def fixed2 (h : Nat) : String :=
  toString (h / 100) ++ "." ++ (if h % 100 < 10 then "0" else "") ++ toString (h % 100)

/-- The method `Number.prototype.toFixed(2)` on a finite `x` with `0 ≤ x < 1e21`:
the integer `n` with `n / 100` nearest to the exact value of `x`, the larger
one on a tie, written with two fraction digits. -/
def toFixed2 (x : ℚ) : String :=
  fixed2 ⌊x * 100 + 1 / 2⌋.toNat

/-- The expression `((score / totalQuestions) * 100).toFixed(2)` (lines 81 and
609) for non-negative integers: `0 / 0` is `NaN`, a positive number over `0` is
`Infinity`, and otherwise the quotient and the product are each rounded to
binary64 before `toFixed` is applied. -/
def percentage (score totalQuestions : Nat) : String :=
  if totalQuestions = 0 then (if score = 0 then "NaN" else "Infinity")
  else toFixed2 (roundToDouble (roundToDouble ((score : ℚ) / (totalQuestions : ℚ)) * 100))

namespace StorageManager

/-- Lines 75-84. -/
def saveQuizCompletion (now : Nat) (email : String) (score totalQuestions : Nat)
    (timeTaken : Int) (store : Stored) : Stored :=
  addLog now
    (LogEntry.quiz_completed email score totalQuestions (percentage score totalQuestions)
      timeTaken)
    store

end StorageManager

/-! ## Array helpers -/

/-- The loop behind `Array.prototype.reduce` with an initial value: the callback
receives the accumulator, the element and its index. -/
def reduceFrom {α β : Type} (f : β → α → Nat → β) : Nat → β → List α → β
  | _, acc, [] => acc
  | idx, acc, x :: xs => reduceFrom f (idx + 1) (f acc x idx) xs

/-- The call `array.reduce(f, init)`. -/
def reduce {α β : Type} (f : β → α → Nat → β) (init : β) (array : List α) : β :=
  reduceFrom f 0 init array

/-- The call `array.forEach(f)`, the effect of the callback being a change of
a state `σ`; the callback receives the element and its index. -/
def forEach {α σ : Type} (f : α → Nat → σ → σ) (array : List α) (st : σ) : σ :=
  reduceFrom (fun acc x idx => f x idx acc) 0 st array

/-- The expression `value || fallback` on an optional string: `undefined` and
the empty string are falsy. -/
def orElse (value : Option String) (fallback : String) : String :=
  match value with
  | some a => if a = "" then fallback else a
  | none => fallback

/-! ## QuizProvider operations -/

/-- Lines 196-201. -/
def selectAnswer (answer : String) (s : QuizState) : QuizState :=
  { s with answers := fun k => if k = s.currentQuestionIndex then some answer else s.answers k }

/-- Lines 203-209. -/
def clearAnswer (s : QuizState) : QuizState :=
  { s with answers := fun k => if k = s.currentQuestionIndex then none else s.answers k }

/-- Lines 211-214: no check is made on `index`. -/
def goToQuestion (index : Int) (s : QuizState) : QuizState :=
  { s with currentQuestionIndex := index, visitedQuestions := insert index s.visitedQuestions }

/-- Lines 216-220. -/
def nextQuestion (s : QuizState) : QuizState :=
  if s.currentQuestionIndex < (s.questions.length : Int) - 1 then
    goToQuestion (s.currentQuestionIndex + 1) s
  else s

/-- Lines 222-226. -/
def previousQuestion (s : QuizState) : QuizState :=
  if 0 < s.currentQuestionIndex then goToQuestion (s.currentQuestionIndex - 1) s else s

/-- The reducer of lines 241-243 and 605-607: one more for a question whose
answer is strictly equal to the correct answer. -/
def scoreStep (answers : Int → Option String) (acc : Nat) (q : Question) (idx : Nat) : Nat :=
  acc + (if answers (idx : Int) = some q.correctAnswer then 1 else 0)

/-- The `score` computed inside `handleSubmitQuiz` (lines 241-243). -/
def handleSubmitQuiz.score (s : QuizState) : Nat :=
  reduce (scoreStep s.answers) 0 s.questions

/-- The `score` computed by `ResultsPage` (lines 605-607). -/
def ResultsPage.score (s : QuizState) : Nat :=
  reduce (scoreStep s.answers) 0 s.questions

/-- The `percentage` shown by `ResultsPage` (line 609). -/
def ResultsPage.percentage (s : QuizState) : String :=
  QuizApp.percentage (ResultsPage.score s) s.questions.length

/-- The `timeTaken` of line 229; a `null` start time counts as `0`. -/
def handleSubmitQuiz.timeTaken (now : Nat) (s : QuizState) : Int :=
  ((now : Int) - ((s.quizStartTime.getD 0 : Nat) : Int)) / 1000

/-- Lines 228-247: log every question, compute the score, log the completion
and show the results page. There is no test of `currentPage`. -/
def handleSubmitQuiz (now : Nat) (w : QuizState × Stored) : QuizState × Stored :=
  let s := w.1
  let afterAnswers :=
    forEach
      (fun q idx store =>
        StorageManager.saveAnswer now s.email idx q.question
          (orElse (s.answers (idx : Int)) "Not answered") q.correctAnswer store)
      s.questions w.2
  ({ s with currentPage := Page.results },
    StorageManager.saveQuizCompletion now s.email (handleSubmitQuiz.score s) s.questions.length
      (handleSubmitQuiz.timeTaken now s) afterAnswers)

/-- Lines 249-259. -/
def resetQuiz (s : QuizState) : QuizState :=
  { s with
    email := ""
    questions := []
    currentQuestionIndex := 0
    answers := fun _ => none
    visitedQuestions := {0}
    timeRemaining := 30 * 60
    quizStartTime := none
    currentPage := Page.start
    error := none }

/-- Lines 116-129, one elapsed second. An interval exists only while the quiz
page is shown with time left (line 117). Its callback stores one second less,
or, when at most one second is left, calls `handleSubmitQuiz` and stores `0`.
The `handleSubmitQuiz` it calls is the one of the render in which the effect
last ran, so it logs the values of that render, `closure`, and its
`setCurrentPage` acts on the current state. -/
def tick (now : Nat) (closure : QuizState) (w : QuizState × Stored) : QuizState × Stored :=
  if w.1.currentPage = Page.quiz ∧ 0 < w.1.timeRemaining then
    if w.1.timeRemaining ≤ 1 then
      ({ w.1 with
          currentPage := (handleSubmitQuiz now (closure, w.2)).1.currentPage
          timeRemaining := 0 },
        (handleSubmitQuiz now (closure, w.2)).2)
    else ({ w.1 with timeRemaining := w.1.timeRemaining - 1 }, w.2)
  else w

/-- A run of elapsed seconds, each with its clock reading and the render whose
closure the interval holds at that moment. -/
def ticks : List (Nat × QuizState) → QuizState × Stored → QuizState × Stored
  | [], w => w
  | t :: ts, w => ticks ts (tick t.1 t.2 w)

/-! ## Reading the log -/

/-- The events that `getLogs` reads back; a stored value that is not an array
holds none. -/
def entries (store : Stored) : List LogEntry :=
  match StorageManager.getLogs store with
  | Parsed.array logs => logs
  | Parsed.notArray => []

/-- The store reads as a list of events: the key is absent, its content does
not parse, or it parses to an array. -/
def readable (store : Stored) : Prop :=
  StorageManager.getLogs store ≠ Parsed.notArray

instance (store : Stored) : Decidable (readable store) := by
  unfold readable; infer_instance

/-- An event of type `quiz_completed`. -/
def LogEntry.isCompleted : LogEntry → Bool
  | LogEntry.quiz_completed _ _ _ _ _ _ => true
  | _ => false

/-- An event of type `answer_saved`. -/
def LogEntry.isAnswer : LogEntry → Bool
  | LogEntry.answer_saved _ _ _ _ _ _ _ => true
  | _ => false

/-- The number of `quiz_completed` events in the log. -/
def completedCount (store : Stored) : Nat :=
  (entries store).countP LogEntry.isCompleted

/-! ## Question supplier -/

/-- The exchange of line 15 on a copy of the array: positions `i` and `j` swap
their elements. -/
def swap {α : Type} (array : List α) (i j : Nat) : List α :=
  match array[i]?, array[j]? with
  | some x, some y => (array.set i y).set j x
  | _, _ => array

/-- The loop of lines 13-16 from index `i` down to `1`. The value drawn at
index `i` is `Math.floor(Math.random() * (i + 1))`, one of `0, ..., i`; it is
read off a stream of arbitrary numbers as `rand i % (i + 1)`. -/
def shuffleLoop {α : Type} (rand : Nat → Nat) : Nat → List α → List α
  | 0, newArray => newArray
  | i + 1, newArray => shuffleLoop rand i (swap newArray (i + 1) (rand (i + 1) % (i + 2)))

/-- Lines 11-18. -/
def shuffleArray {α : Type} (rand : Nat → Nat) (array : List α) : List α :=
  shuffleLoop rand (array.length - 1) array

/-- A record of the built-in list of lines 133-147, before line 148. -/
structure FallbackQuestion where
  question : String
  correctAnswer : String
  allAnswers : List String
  category : String
  difficulty : String
  deriving DecidableEq, Repr

/-- The array literal of lines 133-147. -/
def fallbackList : List FallbackQuestion := [
    ⟨"What is the capital of France?", "Paris",
      ["Paris", "London", "Berlin", "Madrid"], "Geography", "easy"⟩,
    ⟨"Which planet is known as the Red Planet?", "Mars",
      ["Mars", "Venus", "Jupiter", "Saturn"], "Science", "easy"⟩,
    ⟨"Who wrote 'Romeo and Juliet'?", "William Shakespeare",
      ["William Shakespeare", "Charles Dickens", "Jane Austen", "Mark Twain"], "Literature", "medium"⟩,
    ⟨"What is the largest ocean on Earth?", "Pacific Ocean",
      ["Pacific Ocean", "Atlantic Ocean", "Indian Ocean", "Arctic Ocean"], "Geography", "easy"⟩,
    ⟨"In which year did World War II end?", "1945",
      ["1945", "1944", "1946", "1943"], "History", "medium"⟩,
    ⟨"What is the chemical symbol for gold?", "Au",
      ["Au", "Ag", "Fe", "Cu"], "Science", "medium"⟩,
    ⟨"Which programming language is known for web development?", "JavaScript",
      ["JavaScript", "Python", "C++", "Java"], "Technology", "easy"⟩,
    ⟨"What is the smallest prime number?", "2",
      ["2", "1", "3", "5"], "Mathematics", "easy"⟩,
    ⟨"Who painted the Mona Lisa?", "Leonardo da Vinci",
      ["Leonardo da Vinci", "Pablo Picasso", "Vincent van Gogh", "Michelangelo"], "Art", "easy"⟩,
    ⟨"What is the speed of light in vacuum (approximately)?", "300,000 km/s",
      ["300,000 km/s", "150,000 km/s", "450,000 km/s", "200,000 km/s"], "Physics", "hard"⟩,
    ⟨"Which country is home to the kangaroo?", "Australia",
      ["Australia", "New Zealand", "South Africa", "Brazil"], "Geography", "easy"⟩,
    ⟨"What is the largest mammal in the world?", "Blue Whale",
      ["Blue Whale", "Elephant", "Giraffe", "Polar Bear"], "Biology", "easy"⟩,
    ⟨"In which year was the first iPhone released?", "2007",
      ["2007", "2005", "2008", "2006"], "Technology", "medium"⟩,
    ⟨"What is the currency of Japan?", "Yen",
      ["Yen", "Won", "Yuan", "Dollar"], "Economics", "easy"⟩,
    ⟨"Which element has the atomic number 1?", "Hydrogen",
      ["Hydrogen", "Helium", "Oxygen", "Carbon"], "Chemistry", "medium"⟩]

/-- The call `array.map(f)` with a callback that also uses the position. -/
def mapIdxFrom {α β : Type} (f : Nat → α → β) : Nat → List α → List β
  | _, [] => []
  | k, x :: xs => f k x :: mapIdxFrom f (k + 1) xs

/-- Lines 131-149; `random k` is the stream of numbers drawn while the answers
of record `k` are shuffled. -/
def getFallbackQuestions (random : Nat → Nat → Nat) : List Question :=
  mapIdxFrom
    (fun k q =>
      { question := q.question, correctAnswer := q.correctAnswer,
        allAnswers := shuffleArray (random k) q.allAnswers,
        category := q.category, difficulty := q.difficulty, type := "multiple" })
    0 fallbackList

/-- One element of `data.results` in the reply of the remote source. -/
structure RawQuestion where
  question : String
  correct_answer : String
  incorrect_answers : List String
  type : String
  category : String
  difficulty : String
  deriving DecidableEq, Repr

/-- The outcome of lines 155-161: `failed` is every case in which the `try`
block throws before line 163 (rejected request, `response.ok` false, a body
that is not JSON); otherwise the reply carries a code and a result list. -/
inductive Response where
  | failed
  | ok (response_code : Int) (results : List RawQuestion)

/-- What the browser contributes to `fetchQuestions`. -/
structure Browser where
  decodeHTML : String → String
  response : Response
  random : Nat → Nat → Nat

/-- Lines 167-177. -/
def processQuestions (env : Browser) (results : List RawQuestion) : List Question :=
  mapIdxFrom
    (fun k q =>
      { question := env.decodeHTML q.question,
        correctAnswer := env.decodeHTML q.correct_answer,
        allAnswers := shuffleArray (env.random k)
          (env.decodeHTML q.correct_answer :: q.incorrect_answers.map env.decodeHTML),
        type := q.type,
        category := env.decodeHTML q.category,
        difficulty := q.difficulty })
    0 results

/-- Lines 151-194, run to completion: both branches store a question list and
the start time, log the start and show the quiz page. -/
def fetchQuestions (env : Browser) (now : Nat) (w : QuizState × Stored) : QuizState × Stored :=
  ({ w.1 with
      isLoading := false
      error := none
      questions :=
        match env.response with
        | Response.ok 0 results => processQuestions env results
        | _ => getFallbackQuestions env.random
      quizStartTime := some now
      currentPage := Page.quiz },
    StorageManager.saveQuizStart now w.1.email w.2)

/-! ## Start page -/

/-- The classes of characters that the pattern of line 292 tells apart. -/
inductive CharClass where
  | space
  | atSign
  | dot
  | other
  deriving DecidableEq, Repr

/-- The characters matched by `\s` in a JavaScript pattern. -/
def isWhiteSpace (c : Char) : Bool :=
  c.val = 0x09 || c.val = 0x0A || c.val = 0x0B || c.val = 0x0C || c.val = 0x0D ||
  c.val = 0x20 || c.val = 0xA0 || c.val = 0x1680 || (0x2000 ≤ c.val && c.val ≤ 0x200A) ||
  c.val = 0x2028 || c.val = 0x2029 || c.val = 0x202F || c.val = 0x205F ||
  c.val = 0x3000 || c.val = 0xFEFF

/-- The class of a character. -/
def classify (c : Char) : CharClass :=
  if isWhiteSpace c then CharClass.space
  else if c = '@' then CharClass.atSign
  else if c = '.' then CharClass.dot
  else CharClass.other

/-- The class `[^\s@]`. -/
def notSpaceAt : RegularExpression CharClass :=
  RegularExpression.char CharClass.dot + RegularExpression.char CharClass.other

/-- The quantifier `+`: one or more repetitions. -/
def oneOrMore (r : RegularExpression CharClass) : RegularExpression CharClass :=
  r * RegularExpression.star r

/-- The pattern `/^[^\s@]+@[^\s@]+\.[^\s@]+$/` of line 292; the anchors make it
a match of the whole string. -/
def re : RegularExpression CharClass :=
  oneOrMore notSpaceAt * RegularExpression.char CharClass.atSign * oneOrMore notSpaceAt *
    RegularExpression.char CharClass.dot * oneOrMore notSpaceAt

/-- A class of `[^\s@]`. -/
def CharClass.plain (c : CharClass) : Prop :=
  c = CharClass.dot ∨ c = CharClass.other

/-- Lines 291-294. -/
def validateEmail (email : String) : Bool :=
  re.rmatch (email.toList.map classify)

/-- The shape of an identity in the words of the specification: exactly one
`@`, at least one `.` after it, and no whitespace. -/
def emailShape (email : String) : Prop :=
  email.toList.count '@' = 1 ∧
    '.' ∈ email.toList.dropWhile (fun c => c != '@') ∧
    ∀ c ∈ email.toList, isWhiteSpace c = false

instance (email : String) : Decidable (emailShape email) := by
  unfold emailShape; infer_instance

/-- The state seen by `handleStart`: the provider state and the log, the local
`emailError` of `StartPage`, and the number of calls of `fetchQuestions` made
so far. -/
structure StartPage where
  quiz : QuizState
  store : Stored
  emailError : String
  fetchCalls : Nat

/-- Lines 296-307. -/
def handleStart (env : Browser) (now : Nat) (p : StartPage) : StartPage :=
  if p.quiz.email = "" then
    { p with emailError := "Please enter your email address" }
  else if validateEmail p.quiz.email = false then
    { p with emailError := "Please enter a valid email address" }
  else
    { quiz := (fetchQuestions env now (p.quiz, p.store)).1
      store := (fetchQuestions env now (p.quiz, p.store)).2
      emailError := ""
      fetchCalls := p.fetchCalls + 1 }

/-- The events that one call of `handleSubmitQuiz` sends to `addLog`: one
`answer_saved` event for each question, in order, then one `quiz_completed`
event. -/
def submitEvents (now : Nat) (s : QuizState) : List LogEntry :=
  List.ofFn (fun i : Fin s.questions.length =>
      LogEntry.answer_saved s.email i (s.questions.get i).question
        (orElse (s.answers ((i : Nat) : Int)) "Not answered") (s.questions.get i).correctAnswer
        (decide (orElse (s.answers ((i : Nat) : Int)) "Not answered" =
          (s.questions.get i).correctAnswer)) now) ++
    [LogEntry.quiz_completed s.email (handleSubmitQuiz.score s) s.questions.length
      (percentage (handleSubmitQuiz.score s) s.questions.length)
      (handleSubmitQuiz.timeTaken now s) now]

/-! ## Sample sessions -/

/-- A question with two candidate answers. -/
def sampleQuestion : Question :=
  { question := "Q", correctAnswer := "A", allAnswers := ["A", "B"], category := "c",
    difficulty := "easy", type := "multiple" }

/-- A session in progress on one question, answered correctly. -/
def sampleSession : QuizState :=
  { initialState with
    email := "a@b.c"
    questions := [sampleQuestion]
    answers := fun k => if k = 0 then some "A" else none
    quizStartTime := some 0
    currentPage := Page.quiz }

/-- The sample session with the empty string selected as the answer. -/
def blankSession : QuizState :=
  { sampleSession with answers := fun k => if k = 0 then some "" else none }

/-- The three values returned by `getQuestionStatus`. -/
inductive QuestionStatus where
  | answered
  | visited
  | notVisited
  deriving DecidableEq, Repr

/-- Lines 407-411 of `QuizPage`: a question counts as answered as soon as its
key is present in `answers`, whatever the value. -/
def getQuestionStatus (s : QuizState) (index : Int) : QuestionStatus :=
  if s.answers index ≠ none then QuestionStatus.answered
  else if index ∈ s.visitedQuestions then QuestionStatus.visited
  else QuestionStatus.notVisited

/-! ## Navigation runs -/

/-- One call of a navigation handler. -/
inductive NavOp where
  | goTo (index : Int)
  | next
  | previous
  deriving DecidableEq, Repr

/-- The handler that a navigation call runs. -/
def NavOp.apply : NavOp → QuizState → QuizState
  | NavOp.goTo index, s => goToQuestion index s
  | NavOp.next, s => nextQuestion s
  | NavOp.previous, s => previousQuestion s

/-- A sequence of navigation calls, each made on the state that the one
before it left. -/
def navigate : List NavOp → QuizState → QuizState
  | [], s => s
  | op :: ops, s => navigate ops (op.apply s)

/-- The value of the current index after each call of a sequence. -/
def navTrace : List NavOp → QuizState → List Int
  | [], _ => []
  | op :: ops, s => (op.apply s).currentQuestionIndex :: navTrace ops (op.apply s)

/-- A second question. -/
def otherQuestion : Question :=
  { question := "R", correctAnswer := "B", allAnswers := ["A", "B"], category := "c",
    difficulty := "easy", type := "multiple" }

/-- A state on the results page: two questions, the first answered. -/
def resultsSession : QuizState :=
  { sampleSession with
    questions := [sampleQuestion, otherQuestion]
    currentPage := Page.results }

/-- A session in progress on one question whose correct answer is the text
`Not answered`, left unanswered. -/
def sentinelSession : QuizState :=
  { sampleSession with
    questions := [{ sampleQuestion with
      correctAnswer := "Not answered", allAnswers := ["Not answered", "B"] }]
    answers := fun _ => none }

/-- An `answer_saved` event whose `isCorrect` field is `true`. -/
def LogEntry.isCorrectAnswer : LogEntry → Bool
  | LogEntry.answer_saved _ _ _ _ _ isCorrect _ => isCorrect
  | _ => false

/-! ## Scoring -/

/-- The reducer loop started at index `k` adds to the accumulator the number of
positions whose answer is the correct one. -/
theorem reduceFrom_scoreStep (answers : Int → Option String) (xs : List Question) :
    ∀ (k acc : Nat), reduceFrom (scoreStep answers) k acc xs =
      acc + (Finset.univ.filter (fun i : Fin xs.length =>
        answers (((k + (i : Nat) : Nat)) : Int) = some (xs.get i).correctAnswer)).card := by
  induction xs with
  | nil => intro k acc; simp [reduceFrom]
  | cons x xs ih =>
    intro k acc
    rw [reduceFrom, ih]
    simp only [Finset.card_filter, List.length_cons]
    rw [Fin.sum_univ_succ]
    have e : ∀ i : Fin xs.length, k + 1 + (i : Nat) = k + ((i : Nat) + 1) := fun i => by omega
    have g : ∀ i : Fin xs.length, (x :: xs).get i.succ = xs.get i := fun i => rfl
    simp only [scoreStep, Fin.val_zero, Nat.add_zero, List.get_cons_zero, Fin.val_succ, e, g]
    omega

/-- A filtered set of indices below `n` has at most `n` members. -/
theorem card_filter_fin_le (n : Nat) (p : Fin n → Prop) [DecidablePred p] :
    (Finset.univ.filter p).card ≤ n := by
  calc (Finset.univ.filter p).card ≤ (Finset.univ : Finset (Fin n)).card := Finset.card_filter_le _ _
    _ = n := by simp

/-- The score of `handleSubmitQuiz` as a number of indices. -/
theorem handleSubmitQuiz_score_eq (s : QuizState) :
    handleSubmitQuiz.score s =
      (Finset.univ.filter (fun i : Fin s.questions.length =>
        s.answers (((i : Nat)) : Int) = some (s.questions.get i).correctAnswer)).card := by
  unfold handleSubmitQuiz.score reduce
  rw [reduceFrom_scoreStep]
  simp

/-- The score of `handleSubmitQuiz` is at most the number of questions. -/
theorem handleSubmitQuiz_score_le (s : QuizState) :
    handleSubmitQuiz.score s ≤ s.questions.length := by
  rw [handleSubmitQuiz_score_eq]
  exact card_filter_fin_le _ _

/-- C1: the score computed by `handleSubmitQuiz`, and again by `ResultsPage` on
the state that the submission leaves, is the number of indices `i < N` whose
answer is present and equal to `questions[i].correctAnswer`; it is at most `N`,
and an index without an answer is never counted. -/
theorem score_eq_count (now : Nat) (s : QuizState) (store : Stored) :
    handleSubmitQuiz.score s =
        (Finset.univ.filter (fun i : Fin s.questions.length =>
          s.answers (((i : Nat)) : Int) = some (s.questions.get i).correctAnswer)).card ∧
      ResultsPage.score (handleSubmitQuiz now (s, store)).1 = handleSubmitQuiz.score s ∧
      handleSubmitQuiz.score s ≤ s.questions.length ∧
      ∀ i : Fin s.questions.length, s.answers (((i : Nat)) : Int) = none →
        i ∉ Finset.univ.filter (fun i : Fin s.questions.length =>
          s.answers (((i : Nat)) : Int) = some (s.questions.get i).correctAnswer) := by
  refine ⟨handleSubmitQuiz_score_eq s, rfl, handleSubmitQuiz_score_le s, ?_⟩
  intro i hi
  rw [Finset.mem_filter, hi]
  rintro ⟨_, h⟩
  exact Option.noConfusion h

/-! ## Logging -/


/-- On a readable store `addLog` adds its stamped entry at the end. -/
theorem addLog_entries (now : Nat) (e : LogRecord) (store : Stored) (h : readable store) :
    entries (StorageManager.addLog now e store) = entries store ++ [e now] ∧
      readable (StorageManager.addLog now e store) := by
  unfold readable at *
  unfold StorageManager.addLog entries
  cases hg : StorageManager.getLogs store with
  | array logs => simp [StorageManager.getLogs]
  | notArray => exact absurd hg h

/-- The loop of lines 231-239 started at index `k`: one `answer_saved` event
for each question, in order. -/
theorem saveAnswer_loop (now : Nat) (s : QuizState) (xs : List Question) :
    ∀ (k : Nat) (store : Stored), readable store →
      entries (reduceFrom (fun acc q idx =>
          StorageManager.saveAnswer now s.email idx q.question
            (orElse (s.answers (idx : Int)) "Not answered") q.correctAnswer acc) k store xs) =
        entries store ++ List.ofFn (fun i : Fin xs.length =>
          LogEntry.answer_saved s.email (k + i) (xs.get i).question
            (orElse (s.answers ((k + (i : Nat) : Nat) : Int)) "Not answered")
            (xs.get i).correctAnswer
            (decide (orElse (s.answers ((k + (i : Nat) : Nat) : Int)) "Not answered" =
              (xs.get i).correctAnswer)) now) ∧
      readable (reduceFrom (fun acc q idx =>
          StorageManager.saveAnswer now s.email idx q.question
            (orElse (s.answers (idx : Int)) "Not answered") q.correctAnswer acc) k store xs) := by
  induction xs with
  | nil => intro k store h; simp [reduceFrom, h]
  | cons x xs ih =>
    intro k store h
    rw [reduceFrom]
    have h1 : entries (StorageManager.saveAnswer now s.email k x.question
          (orElse (s.answers (k : Int)) "Not answered") x.correctAnswer store) =
        entries store ++ [LogEntry.answer_saved s.email k x.question
          (orElse (s.answers (k : Int)) "Not answered") x.correctAnswer
          (decide (orElse (s.answers (k : Int)) "Not answered" = x.correctAnswer)) now] ∧
        readable (StorageManager.saveAnswer now s.email k x.question
          (orElse (s.answers (k : Int)) "Not answered") x.correctAnswer store) :=
      addLog_entries now _ store h
    have h2 := ih (k + 1) _ h1.2
    refine ⟨?_, h2.2⟩
    rw [h2.1, h1.1]
    have e : ∀ i : Fin xs.length, k + 1 + (i : Nat) = k + ((i : Nat) + 1) := fun i => by omega
    simp only [List.length_cons, List.ofFn_succ, Fin.val_zero, Nat.add_zero, List.get_cons_zero,
      Fin.val_succ, e, List.append_assoc, List.singleton_append, List.get_cons_succ]
    rfl

/-- One call of `handleSubmitQuiz` on a readable store adds `submitEvents` at
the end of the log. -/
theorem handleSubmitQuiz_entries (now : Nat) (s : QuizState) (store : Stored)
    (h : readable store) :
    entries (handleSubmitQuiz now (s, store)).2 = entries store ++ submitEvents now s ∧
      readable (handleSubmitQuiz now (s, store)).2 := by
  have h1 := saveAnswer_loop now s s.questions 0 store h
  have h2 := addLog_entries now
    (LogEntry.quiz_completed s.email (handleSubmitQuiz.score s) s.questions.length
      (percentage (handleSubmitQuiz.score s) s.questions.length)
      (handleSubmitQuiz.timeTaken now s)) _ h1.2
  refine ⟨?_, h2.2⟩
  exact h2.1.trans (by rw [h1.1]; simp [submitEvents])

/-- Among the events of one submission exactly one is a completion. -/
theorem submitEvents_completed (now : Nat) (s : QuizState) :
    (submitEvents now s).countP LogEntry.isCompleted = 1 := by
  unfold submitEvents
  rw [List.countP_append, List.countP_eq_zero.mpr]
  · simp [LogEntry.isCompleted]
  · intro e he
    rw [List.mem_ofFn] at he
    obtain ⟨i, rfl⟩ := he
    simp [LogEntry.isCompleted]

/-- One call of `handleSubmitQuiz` on a readable store adds one completion. -/
theorem handleSubmitQuiz_completedCount (now : Nat) (s : QuizState) (store : Stored)
    (h : readable store) :
    completedCount (handleSubmitQuiz now (s, store)).2 = completedCount store + 1 := by
  unfold completedCount
  rw [(handleSubmitQuiz_entries now s store h).1, List.countP_append, submitEvents_completed]

/-! ## Submission -/


/-- C2, as stated, fails: the sample session is in progress, its first submission
shows the results page, and the second submission, made on the results page,
still changes the log, which then holds two `quiz_completed` events. -/
theorem submit_twice_logs_twice :
    sampleSession.currentPage = Page.quiz ∧
      (handleSubmitQuiz 1000 (sampleSession, Stored.absent)).1.currentPage = Page.results ∧
      (handleSubmitQuiz 2000 (handleSubmitQuiz 1000 (sampleSession, Stored.absent))).2 ≠
        (handleSubmitQuiz 1000 (sampleSession, Stored.absent)).2 ∧
      completedCount
        (handleSubmitQuiz 2000 (handleSubmitQuiz 1000 (sampleSession, Stored.absent))).2 = 2 := by
  have hr : readable Stored.absent := by decide
  have h1 := handleSubmitQuiz_completedCount 1000 sampleSession Stored.absent hr
  have h2 := handleSubmitQuiz_completedCount 2000 (handleSubmitQuiz 1000 (sampleSession, Stored.absent)).1
    (handleSubmitQuiz 1000 (sampleSession, Stored.absent)).2
    (handleSubmitQuiz_entries 1000 sampleSession Stored.absent hr).2
  have h0 : completedCount Stored.absent = 0 := by decide
  rw [h0] at h1
  refine ⟨rfl, rfl, ?_, ?_⟩
  · intro he
    have : completedCount (handleSubmitQuiz 2000 (handleSubmitQuiz 1000 (sampleSession, Stored.absent))).2 =
        completedCount (handleSubmitQuiz 1000 (sampleSession, Stored.absent)).2 := by rw [he]
    change completedCount (handleSubmitQuiz 2000 ((handleSubmitQuiz 1000 (sampleSession, Stored.absent)).1, (handleSubmitQuiz 1000 (sampleSession, Stored.absent)).2)).2 = _ at this
    omega
  · change completedCount (handleSubmitQuiz 2000 ((handleSubmitQuiz 1000 (sampleSession, Stored.absent)).1, (handleSubmitQuiz 1000 (sampleSession, Stored.absent)).2)).2 = _
    omega

/-- C2, amended: `handleSubmitQuiz` does not test the phase. Of two calls in
succession on a readable store, the first shows the results page; the second
leaves the session state as it is but logs again: the log grows by the events
of a second submission, computed on the same questions and answers and hence
with the same score, and holds two more `quiz_completed` events than before
the first call. -/
theorem handleSubmitQuiz_twice (now1 now2 : Nat) (s : QuizState) (store : Stored)
    (h : readable store) :
    (handleSubmitQuiz now1 (s, store)).1.currentPage = Page.results ∧
      (handleSubmitQuiz now2 (handleSubmitQuiz now1 (s, store))).1 =
        (handleSubmitQuiz now1 (s, store)).1 ∧
      entries (handleSubmitQuiz now2 (handleSubmitQuiz now1 (s, store))).2 =
        entries (handleSubmitQuiz now1 (s, store)).2 ++
          submitEvents now2 (handleSubmitQuiz now1 (s, store)).1 ∧
      handleSubmitQuiz.score (handleSubmitQuiz now1 (s, store)).1 = handleSubmitQuiz.score s ∧
      completedCount (handleSubmitQuiz now2 (handleSubmitQuiz now1 (s, store))).2 =
        completedCount store + 2 := by
  have h1 := handleSubmitQuiz_entries now1 s store h
  have h2 := handleSubmitQuiz_entries now2 (handleSubmitQuiz now1 (s, store)).1
    (handleSubmitQuiz now1 (s, store)).2 h1.2
  have c1 := handleSubmitQuiz_completedCount now1 s store h
  have c2 := handleSubmitQuiz_completedCount now2 (handleSubmitQuiz now1 (s, store)).1
    (handleSubmitQuiz now1 (s, store)).2 h1.2
  refine ⟨rfl, rfl, h2.1, rfl, ?_⟩
  change completedCount (handleSubmitQuiz now2 ((handleSubmitQuiz now1 (s, store)).1,
    (handleSubmitQuiz now1 (s, store)).2)).2 = _
  omega

/-- The amended C2 on the sample session, started with an empty store. -/
theorem handleSubmitQuiz_twice_witness :
    readable Stored.absent ∧
      completedCount
        (handleSubmitQuiz 2000 (handleSubmitQuiz 1000 (sampleSession, Stored.absent))).2 =
        completedCount Stored.absent + 2 :=
  ⟨by decide, (handleSubmitQuiz_twice 1000 2000 sampleSession Stored.absent (by decide)).2.2.2.2⟩

/-! ## Timer -/


/-- A tick on a state without a running interval changes nothing. -/
theorem tick_idle (now : Nat) (closure : QuizState) (w : QuizState × Stored)
    (h : ¬ (w.1.currentPage = Page.quiz ∧ 0 < w.1.timeRemaining)) : tick now closure w = w := by
  unfold tick
  rw [if_neg h]

/-- Ticks on a state without a running interval change nothing. -/
theorem ticks_idle (run : List (Nat × QuizState)) (w : QuizState × Stored)
    (h : ¬ (w.1.currentPage = Page.quiz ∧ 0 < w.1.timeRemaining)) : ticks run w = w := by
  induction run with
  | nil => rfl
  | cons t ts ih => rw [ticks, tick_idle _ _ _ h, ih]

/-- The tick taken with more than one second left. -/
theorem tick_step (now : Nat) (closure s : QuizState) (store : Stored)
    (hp : s.currentPage = Page.quiz) (hr : 1 < s.timeRemaining) :
    tick now closure (s, store) = ({ s with timeRemaining := s.timeRemaining - 1 }, store) := by
  unfold tick
  rw [if_pos ⟨hp, by show 0 < s.timeRemaining; omega⟩, if_neg (by show ¬ s.timeRemaining ≤ 1; omega)]

/-- The tick taken with one second left. -/
theorem tick_last (now : Nat) (closure s : QuizState) (store : Stored)
    (hp : s.currentPage = Page.quiz) (hr : s.timeRemaining = 1) :
    tick now closure (s, store) =
      ({ s with currentPage := Page.results, timeRemaining := 0 },
        (handleSubmitQuiz now (closure, store)).2) := by
  unfold tick
  rw [if_pos ⟨hp, by show 0 < s.timeRemaining; omega⟩, if_pos (by show s.timeRemaining ≤ 1; omega)]
  rfl

/-- A run of ticks shorter than the time left only counts down. -/
theorem ticks_short (run : List (Nat × QuizState)) :
    ∀ (s : QuizState) (store : Stored), s.currentPage = Page.quiz →
      (run.length : Int) < s.timeRemaining →
      ticks run (s, store) = ({ s with timeRemaining := s.timeRemaining - run.length }, store) := by
  induction run with
  | nil => intro s store _ _; simp [ticks]
  | cons t ts ih =>
    intro s store hp hr
    simp only [List.length_cons, Nat.cast_add, Nat.cast_one] at hr
    have h := ih { s with timeRemaining := s.timeRemaining - 1 } store hp
      (by show (ts.length : Int) < s.timeRemaining - 1; omega)
    rw [ticks, tick_step _ _ _ _ hp (by omega), h]
    simp only [List.length_cons, Nat.cast_add, Nat.cast_one]
    congr 2
    omega

/-- A run of ticks at least as long as the time left ends on the results page
with no time left and one more completion in the log. -/
theorem ticks_long (run : List (Nat × QuizState)) :
    ∀ (s : QuizState) (store : Stored), s.currentPage = Page.quiz → readable store →
      1 ≤ s.timeRemaining → s.timeRemaining ≤ (run.length : Int) →
      (ticks run (s, store)).1.timeRemaining = 0 ∧
        (ticks run (s, store)).1.currentPage = Page.results ∧
        completedCount (ticks run (s, store)).2 = completedCount store + 1 := by
  induction run with
  | nil => intro s store _ _ h1 h2; simp at h2; omega
  | cons t ts ih =>
    intro s store hp hs h1 h2
    simp only [List.length_cons, Nat.cast_add, Nat.cast_one] at h2
    rw [ticks]
    by_cases hr : s.timeRemaining = 1
    · rw [tick_last _ _ _ _ hp hr, ticks_idle _ _ (by simp)]
      exact ⟨rfl, rfl, handleSubmitQuiz_completedCount _ _ _ hs⟩
    · rw [tick_step _ _ _ _ hp (by omega)]
      exact ih _ store hp hs (by show 1 ≤ s.timeRemaining - 1; omega)
        (by show s.timeRemaining - 1 ≤ _; omega)

/-- C4: in a session in progress with `r ≥ 1` seconds left and a readable log,
a tick lowers the time left by exactly one and not below zero. With more than
one second left it changes nothing else. With one second left it shows the
results page and logs one submission, hence exactly one `quiz_completed`
event, and every later run of ticks changes nothing at all. A run of fewer than
`r` ticks only counts down, and a run of at least `r` ticks ends with no time
left, on the results page, with exactly one more `quiz_completed` event than
at the start. -/
theorem tick_countdown (now : Nat) (closure s : QuizState) (store : Stored)
    (hp : s.currentPage = Page.quiz) (hr : 1 ≤ s.timeRemaining) (hs : readable store) :
    (tick now closure (s, store)).1.timeRemaining = s.timeRemaining - 1 ∧
      0 ≤ (tick now closure (s, store)).1.timeRemaining ∧
      (1 < s.timeRemaining →
        tick now closure (s, store) = ({ s with timeRemaining := s.timeRemaining - 1 }, store)) ∧
      (s.timeRemaining = 1 →
        (tick now closure (s, store)).1.currentPage = Page.results ∧
        entries (tick now closure (s, store)).2 = entries store ++ submitEvents now closure ∧
        completedCount (tick now closure (s, store)).2 = completedCount store + 1 ∧
        ∀ later : List (Nat × QuizState),
          ticks later (tick now closure (s, store)) = tick now closure (s, store)) ∧
      (∀ run : List (Nat × QuizState), (run.length : Int) < s.timeRemaining →
        ticks run (s, store) =
          ({ s with timeRemaining := s.timeRemaining - run.length }, store)) ∧
      (∀ run : List (Nat × QuizState), s.timeRemaining ≤ (run.length : Int) →
        (ticks run (s, store)).1.timeRemaining = 0 ∧
        (ticks run (s, store)).1.currentPage = Page.results ∧
        completedCount (ticks run (s, store)).2 = completedCount store + 1) := by
  refine ⟨?_, ?_, ?_, ?_, fun run h => ticks_short run s store hp h, ?_⟩
  · by_cases h1 : s.timeRemaining = 1
    · rw [tick_last _ _ _ _ hp h1]; show (0 : Int) = _; omega
    · rw [tick_step _ _ _ _ hp (by omega)]
  · by_cases h1 : s.timeRemaining = 1
    · rw [tick_last _ _ _ _ hp h1]
    · rw [tick_step _ _ _ _ hp (by omega)]; show 0 ≤ s.timeRemaining - 1; omega
  · intro h1; exact tick_step _ _ _ _ hp h1
  · intro h1
    rw [tick_last _ _ _ _ hp h1]
    refine ⟨rfl, (handleSubmitQuiz_entries _ _ _ hs).1, handleSubmitQuiz_completedCount _ _ _ hs, ?_⟩
    intro later
    exact ticks_idle _ _ (by simp)
  · intro run h
    exact ticks_long run s store hp hs hr h

/-- C4 on the sample session with one second left and an empty store. -/
theorem tick_countdown_witness :
    ({ sampleSession with timeRemaining := 1 } : QuizState).currentPage = Page.quiz ∧
      (1 : Int) ≤ ({ sampleSession with timeRemaining := 1 } : QuizState).timeRemaining ∧
      readable Stored.absent ∧
      (tick 5 sampleSession ({ sampleSession with timeRemaining := 1 }, Stored.absent)).1.timeRemaining
        = 1 - 1 :=
  ⟨rfl, by decide, by decide,
    (tick_countdown 5 sampleSession { sampleSession with timeRemaining := 1 } Stored.absent rfl
      (by decide) (by decide)).1⟩

/-! ## Navigation -/

/-- C5, as stated, fails: with one question, index `20` is out of range, yet
`goToQuestion 20` moves the current index there and marks it visited. -/
theorem goToQuestion_out_of_range :
    ¬ ((0 : Int) ≤ 20 ∧ (20 : Int) < (sampleSession.questions.length : Int)) ∧
      (goToQuestion 20 sampleSession).currentQuestionIndex ≠ sampleSession.currentQuestionIndex ∧
      (goToQuestion 20 sampleSession).visitedQuestions ≠ sampleSession.visitedQuestions := by
  refine ⟨by decide, by decide, by decide⟩

/-- C5, amended: `goToQuestion` makes no range check and raises no error. For
every index, inside `[0, N)` or not, it sets the current index to that index,
adds it to the visited set, which keeps its earlier members, and leaves every
other field as it is. -/
theorem goToQuestion_spec (index : Int) (s : QuizState) :
    (goToQuestion index s).currentQuestionIndex = index ∧
      (goToQuestion index s).visitedQuestions = insert index s.visitedQuestions ∧
      index ∈ (goToQuestion index s).visitedQuestions ∧
      s.visitedQuestions ⊆ (goToQuestion index s).visitedQuestions ∧
      goToQuestion index s =
        { s with currentQuestionIndex := index,
                 visitedQuestions := insert index s.visitedQuestions } := by
  refine ⟨rfl, rfl, ?_, ?_, rfl⟩
  · exact Finset.mem_insert_self _ _
  · exact Finset.subset_insert _ _

/-- C6: with `N ≥ 1` questions and the current index inside `[0, N)`,
`nextQuestion` is `goToQuestion (currentIndex + 1)` below the last index and
changes nothing on it, `previousQuestion` is `goToQuestion (currentIndex - 1)`
above index `0` and changes nothing on it, both keep the current index inside
`[0, N)`, and `goTo i; goTo j; previous` with `j > 0` lands on `j - 1`. -/
theorem next_previous_spec (s : QuizState) (_hN : 1 ≤ s.questions.length)
    (h0 : 0 ≤ s.currentQuestionIndex)
    (h1 : s.currentQuestionIndex < (s.questions.length : Int)) :
    (s.currentQuestionIndex < (s.questions.length : Int) - 1 →
        nextQuestion s = goToQuestion (s.currentQuestionIndex + 1) s) ∧
      (s.currentQuestionIndex = (s.questions.length : Int) - 1 → nextQuestion s = s) ∧
      (0 < s.currentQuestionIndex →
        previousQuestion s = goToQuestion (s.currentQuestionIndex - 1) s) ∧
      (s.currentQuestionIndex = 0 → previousQuestion s = s) ∧
      (0 ≤ (nextQuestion s).currentQuestionIndex ∧
        (nextQuestion s).currentQuestionIndex < ((nextQuestion s).questions.length : Int)) ∧
      (0 ≤ (previousQuestion s).currentQuestionIndex ∧
        (previousQuestion s).currentQuestionIndex <
          ((previousQuestion s).questions.length : Int)) ∧
      ∀ i j : Int, 0 < j →
        (previousQuestion (goToQuestion j (goToQuestion i s))).currentQuestionIndex = j - 1 := by
  refine ⟨?_, ?_, ?_, ?_, ?_, ?_, ?_⟩
  · intro h; unfold nextQuestion; rw [if_pos h]
  · intro h; unfold nextQuestion; rw [if_neg (by omega)]
  · intro h; unfold previousQuestion; rw [if_pos h]
  · intro h; unfold previousQuestion; rw [if_neg (by omega)]
  · unfold nextQuestion
    split
    · constructor
      · show 0 ≤ s.currentQuestionIndex + 1; omega
      · show s.currentQuestionIndex + 1 < (s.questions.length : Int); omega
    · exact ⟨h0, h1⟩
  · unfold previousQuestion
    split
    · constructor
      · show 0 ≤ s.currentQuestionIndex - 1; omega
      · show s.currentQuestionIndex - 1 < (s.questions.length : Int); omega
    · exact ⟨h0, h1⟩
  · intro i j hj
    unfold previousQuestion
    rw [if_pos (by show 0 < j; exact hj)]
    rfl

/-- C6 on the sample session: one question, current index `0`. -/
theorem next_previous_spec_witness :
    1 ≤ sampleSession.questions.length ∧ 0 ≤ sampleSession.currentQuestionIndex ∧
      sampleSession.currentQuestionIndex < (sampleSession.questions.length : Int) ∧
      (sampleSession.currentQuestionIndex = (sampleSession.questions.length : Int) - 1 →
        nextQuestion sampleSession = sampleSession) :=
  ⟨by decide, by decide, by decide,
    (next_previous_spec sampleSession (by decide) (by decide) (by decide)).2.1⟩

/-! ## Answers -/

/-- Storing at the current index a value it already holds changes nothing. -/
theorem answers_update_self (s : QuizState) (v : Option String)
    (h : s.answers s.currentQuestionIndex = v) :
    ({ s with answers := fun k => if k = s.currentQuestionIndex then v else s.answers k } :
      QuizState) = s := by
  have : (fun k => if k = s.currentQuestionIndex then v else s.answers k) = s.answers := by
    funext k
    by_cases hk : k = s.currentQuestionIndex
    · rw [if_pos hk, hk, h]
    · rw [if_neg hk]
  rw [this]

/-- C7: `selectAnswer a` then `clearAnswer` leaves the current index without an
answer and every other entry as it was; when the current question had no
answer, the whole state is the one before `selectAnswer`. `clearAnswer` on an
unanswered question changes nothing. `selectAnswer` sets the entry of the
current index, replaces an earlier selection there, and leaves every other
entry and the current index as they were. -/
theorem select_clear_spec (a b : String) (s : QuizState) :
    (clearAnswer (selectAnswer a s)).answers s.currentQuestionIndex = none ∧
      (∀ k : Int, k ≠ s.currentQuestionIndex →
        (clearAnswer (selectAnswer a s)).answers k = s.answers k) ∧
      (s.answers s.currentQuestionIndex = none → clearAnswer (selectAnswer a s) = s) ∧
      (s.answers s.currentQuestionIndex = none → clearAnswer s = s) ∧
      (selectAnswer a s).answers s.currentQuestionIndex = some a ∧
      (∀ k : Int, k ≠ s.currentQuestionIndex → (selectAnswer a s).answers k = s.answers k) ∧
      (selectAnswer a s).currentQuestionIndex = s.currentQuestionIndex ∧
      selectAnswer b (selectAnswer a s) = selectAnswer b s := by
  refine ⟨?_, ?_, ?_, ?_, ?_, ?_, rfl, ?_⟩
  · simp [clearAnswer, selectAnswer]
  · intro k hk; simp [clearAnswer, selectAnswer, hk]
  · intro h
    have e : clearAnswer (selectAnswer a s) = clearAnswer s := by
      unfold clearAnswer selectAnswer
      congr 1
      funext k
      by_cases hk : k = s.currentQuestionIndex <;> simp [hk]
    rw [e]
    exact answers_update_self s none h
  · intro h; exact answers_update_self s none h
  · simp [selectAnswer]
  · intro k hk; simp [selectAnswer, hk]
  · unfold selectAnswer
    congr 1
    funext k
    by_cases hk : k = s.currentQuestionIndex <;> simp [hk]

/-- C7 read on an unanswered current question of the initial state. -/
theorem select_clear_spec_witness :
    initialState.answers initialState.currentQuestionIndex = none ∧
      clearAnswer (selectAnswer "A" initialState) = initialState :=
  ⟨rfl, (select_clear_spec "A" "A" initialState).2.2.1 rfl⟩

/-! ## Reset -/

/-- C8: from every state `resetQuiz` gives the initial values to the page, the
email, the question list, the current index, the answers, the visited set, the
time left, the start time and the error; only `isLoading`, which is no part of
the session, is left as it is. The result is the initial state whenever no
load is pending, a second reset changes nothing, and two resets agree on every
session field whatever the states they start from. -/
theorem resetQuiz_spec (s t : QuizState) :
    (resetQuiz s).currentPage = Page.start ∧
      (resetQuiz s).email = "" ∧
      (resetQuiz s).questions = [] ∧
      (resetQuiz s).currentQuestionIndex = 0 ∧
      (resetQuiz s).answers = (fun _ => none) ∧
      (resetQuiz s).visitedQuestions = {0} ∧
      (resetQuiz s).timeRemaining = 1800 ∧
      (resetQuiz s).quizStartTime = none ∧
      (resetQuiz s).error = none ∧
      resetQuiz s = { initialState with isLoading := s.isLoading } ∧
      (s.isLoading = false → resetQuiz s = initialState) ∧
      resetQuiz (resetQuiz s) = resetQuiz s ∧
      ({ resetQuiz s with isLoading := t.isLoading } : QuizState) = resetQuiz t := by
  refine ⟨rfl, rfl, rfl, rfl, rfl, rfl, rfl, rfl, rfl, rfl, ?_, rfl, rfl⟩
  intro h
  show ({ initialState with isLoading := s.isLoading } : QuizState) = initialState
  rw [h]
  rfl

/-- C8 on the results page that a submission of the sample session leaves. -/
theorem resetQuiz_spec_witness :
    (handleSubmitQuiz 1000 (sampleSession, Stored.absent)).1.isLoading = false ∧
      resetQuiz (handleSubmitQuiz 1000 (sampleSession, Stored.absent)).1 = initialState :=
  ⟨rfl, (resetQuiz_spec (handleSubmitQuiz 1000 (sampleSession, Stored.absent)).1
    initialState).2.2.2.2.2.2.2.2.2.2.1 rfl⟩

/-! ## Identity validation -/

/-- The class `[^\s@]` matches the one-letter words over its two classes. -/
theorem mem_notSpaceAt (w : List CharClass) :
    w ∈ notSpaceAt.matches' ↔ ∃ c, w = [c] ∧ c.plain := by
  unfold notSpaceAt CharClass.plain
  rw [RegularExpression.matches'_add, Language.mem_add, RegularExpression.matches'_char,
    RegularExpression.matches'_char]
  constructor
  · rintro (h | h)
    · exact ⟨_, h, Or.inl rfl⟩
    · exact ⟨_, h, Or.inr rfl⟩
  · rintro ⟨c, rfl, (rfl | rfl)⟩
    · exact Or.inl rfl
    · exact Or.inr rfl

/-- One or more of `[^\s@]`: the non-empty words over its two classes. -/
theorem mem_oneOrMore (w : List CharClass) :
    w ∈ (oneOrMore notSpaceAt).matches' ↔ w ≠ [] ∧ ∀ c ∈ w, c.plain := by
  unfold oneOrMore
  rw [RegularExpression.matches'_mul, RegularExpression.matches'_star, Language.mem_mul]
  constructor
  · rintro ⟨a, ha, b, hb, rfl⟩
    rw [mem_notSpaceAt] at ha
    obtain ⟨c, rfl, hc⟩ := ha
    rw [Language.mem_kstar] at hb
    obtain ⟨L, rfl, hL⟩ := hb
    refine ⟨by simp, ?_⟩
    intro d hd
    simp only [List.singleton_append, List.mem_cons, List.mem_flatten] at hd
    rcases hd with rfl | ⟨y, hy, hdy⟩
    · exact hc
    · obtain ⟨e, rfl, he⟩ := (mem_notSpaceAt y).mp (hL y hy)
      simp only [List.mem_singleton] at hdy
      rw [hdy]; exact he
  · rintro ⟨hne, hall⟩
    cases w with
    | nil => exact absurd rfl hne
    | cons c rest =>
      refine ⟨[c], (mem_notSpaceAt _).mpr ⟨c, rfl, hall c (List.mem_cons_self _ _)⟩, rest, ?_, rfl⟩
      rw [Language.mem_kstar]
      refine ⟨rest.map (fun d => [d]), ?_, ?_⟩
      · clear hne hall
        induction rest with
        | nil => rfl
        | cons d ds ih => simpa [List.flatten] using ih
      · intro y hy
        rw [List.mem_map] at hy
        obtain ⟨d, hd, rfl⟩ := hy
        exact (mem_notSpaceAt _).mpr ⟨d, rfl, hall d (List.mem_cons_of_mem _ hd)⟩

/-- The words matched by the pattern of line 292, on classes. -/
theorem mem_re (w : List CharClass) :
    w ∈ re.matches' ↔ ∃ a b c : List CharClass,
      w = a ++ CharClass.atSign :: (b ++ CharClass.dot :: c) ∧
      (a ≠ [] ∧ ∀ x ∈ a, x.plain) ∧ (b ≠ [] ∧ ∀ x ∈ b, x.plain) ∧
      (c ≠ [] ∧ ∀ x ∈ c, x.plain) := by
  unfold re
  simp only [RegularExpression.matches'_mul, Language.mem_mul, RegularExpression.matches'_char,
    mem_oneOrMore]
  constructor
  · rintro ⟨x1, ⟨x2, ⟨x3, ⟨a, ha, x4, h4, rfl⟩, b, hb, rfl⟩, x5, h5, rfl⟩, c, hc, rfl⟩
    cases h4; cases h5
    exact ⟨a, b, c, by simp, ha, hb, hc⟩
  · rintro ⟨a, b, c, rfl, ha, hb, hc⟩
    exact ⟨_, ⟨_, ⟨_, ⟨a, ha, _, rfl, rfl⟩, b, hb, rfl⟩, _, rfl, rfl⟩, c, hc, by simp⟩

/-- Only `@` is classified as the at sign. -/
theorem classify_atSign (c : Char) : classify c = CharClass.atSign ↔ c = '@' := by
  unfold classify
  constructor
  · intro h
    split_ifs at h with h1 h2 h3
    exact h2
  · rintro rfl
    decide

/-- Only `.` is classified as the dot. -/
theorem classify_dot (c : Char) : classify c = CharClass.dot ↔ c = '.' := by
  unfold classify
  constructor
  · intro h
    split_ifs at h with h1 h2 h3
    exact h3
  · rintro rfl
    decide

/-- The characters of the class `[^\s@]`. -/
theorem classify_plain (c : Char) :
    (classify c).plain ↔ isWhiteSpace c = false ∧ c ≠ '@' := by
  unfold classify CharClass.plain
  split_ifs with h1 h2 h3 <;> simp_all


/-- A word of characters of the class `[^\s@]`. -/
theorem map_classify_plain (l : List Char) :
    (∀ x ∈ l.map classify, x.plain) ↔ ∀ c ∈ l, isWhiteSpace c = false ∧ c ≠ '@' := by
  simp only [List.mem_map, forall_exists_index, and_imp, forall_apply_eq_imp_iff₂, classify_plain]

/-- The strings accepted by `validateEmail`, on characters. -/
theorem validateEmail_iff (email : String) :
    validateEmail email = true ↔
      ∃ l x y : List Char, email.toList = l ++ '@' :: (x ++ '.' :: y) ∧
        l ≠ [] ∧ x ≠ [] ∧ y ≠ [] ∧
        ∀ c ∈ l ++ (x ++ y), isWhiteSpace c = false ∧ c ≠ '@' := by
  unfold validateEmail
  rw [RegularExpression.rmatch_iff_matches', mem_re]
  constructor
  · rintro ⟨a, b, c, h, ⟨ha, ha'⟩, ⟨hb, hb'⟩, ⟨hc, hc'⟩⟩
    rw [List.map_eq_append_iff] at h
    obtain ⟨l, r1, hl, rfl, h⟩ := h
    rw [List.map_eq_cons_iff] at h
    obtain ⟨z, r2, rfl, hz, h⟩ := h
    rw [List.map_eq_append_iff] at h
    obtain ⟨x, r3, rfl, rfl, h⟩ := h
    rw [List.map_eq_cons_iff] at h
    obtain ⟨d, y, rfl, hd, rfl⟩ := h
    rw [classify_atSign] at hz
    rw [classify_dot] at hd
    subst hz hd
    refine ⟨l, x, y, hl, ?_, ?_, ?_, ?_⟩
    · rintro rfl; exact ha rfl
    · rintro rfl; exact hb rfl
    · rintro rfl; exact hc rfl
    · intro ch hch
      rw [map_classify_plain] at ha' hb' hc'
      simp only [List.mem_append] at hch
      rcases hch with h | h | h
      · exact ha' _ h
      · exact hb' _ h
      · exact hc' _ h
  · rintro ⟨l, x, y, h, hl, hx, hy, hall⟩
    refine ⟨l.map classify, x.map classify, y.map classify, ?_, ⟨?_, ?_⟩, ⟨?_, ?_⟩, ⟨?_, ?_⟩⟩
    · rw [h]
      simp only [List.map_append, List.map_cons]
      rw [(classify_atSign '@').mpr rfl, (classify_dot '.').mpr rfl]
    · simpa using hl
    · rw [map_classify_plain]; intro c hc; exact hall c (by simp [hc])
    · simpa using hx
    · rw [map_classify_plain]; intro c hc; exact hall c (by simp [hc])
    · simpa using hy
    · rw [map_classify_plain]; intro c hc; exact hall c (by simp [hc])

/-- Every accepted string has the shape that the specification describes. -/
theorem emailShape_of_validateEmail (email : String) (h : validateEmail email = true) :
    emailShape email := by
  obtain ⟨l, x, y, he, hl, hx, hy, hall⟩ := (validateEmail_iff email).mp h
  have hl' : ∀ c ∈ l, isWhiteSpace c = false ∧ c ≠ '@' := fun c hc => hall c (by simp [hc])
  have hx' : ∀ c ∈ x, isWhiteSpace c = false ∧ c ≠ '@' := fun c hc => hall c (by simp [hc])
  have hy' : ∀ c ∈ y, isWhiteSpace c = false ∧ c ≠ '@' := fun c hc => hall c (by simp [hc])
  have cnt : ∀ t : List Char, (∀ c ∈ t, isWhiteSpace c = false ∧ c ≠ '@') → t.count '@' = 0 := by
    intro t ht
    rw [List.count_eq_zero]
    intro hm
    exact (ht _ hm).2 rfl
  unfold emailShape
  rw [he]
  refine ⟨?_, ?_, ?_⟩
  · simp [List.count_cons, cnt l hl', cnt x hx', cnt y hy']
  · rw [List.dropWhile_append_of_pos]
    · simp [List.dropWhile]
    · intro c hc
      simpa using (hl' c hc).2
  · intro c hc
    simp only [List.mem_append, List.mem_cons] at hc
    rcases hc with h | rfl | h | rfl | h
    · exact (hl' c h).1
    · decide
    · exact (hx' c h).1
    · decide
    · exact (hy' c h).1

/-- C10, as stated, fails: `@b.c` has exactly one `@`, a `.` after it and no
whitespace, yet `validateEmail` rejects it; so it does `a@b.` and `a@.c`. -/
theorem validateEmail_rejects_shape :
    emailShape "@b.c" ∧ validateEmail "@b.c" = false ∧
      emailShape "a@b." ∧ validateEmail "a@b." = false ∧
      emailShape "a@.c" ∧ validateEmail "a@.c" = false := by
  decide

/-- C10, amended: `validateEmail` accepts a string if and only if it reads
`l @ x . y` with `l`, `x` and `y` non-empty and free of whitespace and `@`:
exactly one `@`, no whitespace, at least one character before the `@`, and
after the `@` a `.` that has at least one character on each side within that
part. Every accepted string has exactly one `@`, a `.` after it and no
whitespace. -/
theorem validateEmail_spec (email : String) :
    (validateEmail email = true ↔
      ∃ l x y : List Char, email.toList = l ++ '@' :: (x ++ '.' :: y) ∧
        l ≠ [] ∧ x ≠ [] ∧ y ≠ [] ∧
        ∀ c ∈ l ++ (x ++ y), isWhiteSpace c = false ∧ c ≠ '@') ∧
      (validateEmail email = true → emailShape email) :=
  ⟨validateEmail_iff email, emailShape_of_validateEmail email⟩

/-- The amended C10 on `a@b.c`. -/
theorem validateEmail_spec_witness :
    validateEmail "a@b.c" = true ∧ emailShape "a@b.c" :=
  ⟨by decide, (validateEmail_spec "a@b.c").2 (by decide)⟩

/-! ## Start -/

/-- C9: when the email is empty, is rejected by `validateEmail`, or lacks the
shape that the specification asks for, `handleStart` only sets a non-empty
`emailError`: the provider state, with its page, questions, current index,
answers, visited set, time left and start time, is unchanged, the log is
unchanged, and `fetchQuestions` is not called. -/
theorem handleStart_rejects (env : Browser) (now : Nat) (p : StartPage)
    (h : p.quiz.email = "" ∨ validateEmail p.quiz.email = false ∨ ¬ emailShape p.quiz.email) :
    (handleStart env now p).quiz = p.quiz ∧
      (handleStart env now p).quiz.currentPage = p.quiz.currentPage ∧
      (handleStart env now p).store = p.store ∧
      (handleStart env now p).fetchCalls = p.fetchCalls ∧
      (handleStart env now p).emailError ≠ "" := by
  have hv : p.quiz.email = "" ∨ validateEmail p.quiz.email = false := by
    rcases h with h | h | h
    · exact Or.inl h
    · exact Or.inr h
    · right
      by_contra hc
      exact h (emailShape_of_validateEmail _ (by simpa using hc))
  unfold handleStart
  by_cases he : p.quiz.email = ""
  · rw [if_pos he]
    exact ⟨rfl, rfl, rfl, rfl, by show "Please enter your email address" ≠ ""; decide⟩
  · rw [if_neg he]
    rcases hv with h | h
    · exact absurd h he
    · rw [if_pos h]
      exact ⟨rfl, rfl, rfl, rfl, by show "Please enter a valid email address" ≠ ""; decide⟩

/-- C9 on the identity `not-an-email`, typed on the start page of a fresh
session with an empty log. -/
theorem handleStart_rejects_witness :
    validateEmail "not-an-email" = false ∧
      (handleStart ⟨id, Response.failed, fun _ _ => 0⟩ 1000
        ⟨{ initialState with email := "not-an-email" }, Stored.absent, "", 0⟩).quiz.currentPage
        = Page.start ∧
      (handleStart ⟨id, Response.failed, fun _ _ => 0⟩ 1000
        ⟨{ initialState with email := "not-an-email" }, Stored.absent, "", 0⟩).store
        = Stored.absent :=
  ⟨by decide,
    (handleStart_rejects ⟨id, Response.failed, fun _ _ => 0⟩ 1000
      ⟨{ initialState with email := "not-an-email" }, Stored.absent, "", 0⟩
      (Or.inr (Or.inl (by decide)))).2.1,
    (handleStart_rejects ⟨id, Response.failed, fun _ _ => 0⟩ 1000
      ⟨{ initialState with email := "not-an-email" }, Stored.absent, "", 0⟩
      (Or.inr (Or.inl (by decide)))).2.2.1⟩

/-! ## Percentage -/


/-- Rounding to an integer moves a number by at most one half. -/
theorem roundHalfEven_sub_le (x : ℚ) : |((roundHalfEven x : ℤ) : ℚ) - x| ≤ 1 / 2 := by
  have h1 : ((⌊x⌋ : ℤ) : ℚ) ≤ x := Int.floor_le x
  have h2 : x < ((⌊x⌋ : ℤ) : ℚ) + 1 := Int.lt_floor_add_one x
  unfold roundHalfEven
  rw [abs_le]
  split_ifs with a b c
  · constructor <;> linarith
  · push_cast; constructor <;> linarith
  · constructor <;> linarith
  · push_cast; constructor <;> linarith

/-- An integer rounds to itself. -/
theorem roundHalfEven_intCast (n : ℤ) : roundHalfEven (n : ℚ) = n := by
  unfold roundHalfEven
  rw [Int.floor_intCast]
  simp

/-- The binary exponent of `100`. -/
theorem log_hundred : Int.log 2 (100 : ℚ) = 6 := by
  have : (100 : ℚ) = ((100 : ℕ) : ℚ) := by norm_num
  rw [this, Int.log_natCast]
  norm_num [Nat.log]

/-- The number `1` is a binary64 number. -/
theorem roundToDouble_one : roundToDouble 1 = 1 := by
  unfold roundToDouble
  rw [if_neg one_ne_zero, abs_one, Int.log_one_right]
  have e : (1 : ℚ) / 2 ^ (max (0 : ℤ) (-1022) - 52) = ((2 ^ 52 : ℤ) : ℚ) := by
    norm_num [zpow_neg]
  rw [e, roundHalfEven_intCast]
  norm_num [zpow_neg]

/-- The number `100` is a binary64 number. -/
theorem roundToDouble_hundred : roundToDouble 100 = 100 := by
  unfold roundToDouble
  rw [if_neg (by norm_num), abs_of_pos (by norm_num : (0 : ℚ) < 100), log_hundred]
  have e : (100 : ℚ) / 2 ^ (max (6 : ℤ) (-1022) - 52) = ((100 * 2 ^ 46 : ℤ) : ℚ) := by
    norm_num [zpow_neg]
  rw [e, roundHalfEven_intCast]
  norm_num [zpow_neg]

/-- A full score is shown as `100.00`. -/
theorem percentage_full (n : Nat) (h : 1 ≤ n) : percentage n n = "100.00" := by
  unfold percentage
  rw [if_neg (by omega)]
  have hn : (n : ℚ) ≠ 0 := by
    have : (0 : ℚ) < n := by exact_mod_cast h
    exact ne_of_gt this
  rw [div_self hn, roundToDouble_one, one_mul, roundToDouble_hundred]
  unfold toFixed2
  have : ⌊(100 : ℚ) * 100 + 1 / 2⌋ = 10000 := by
    rw [Int.floor_eq_iff]; norm_num
  rw [this]
  decide


/-- In the normal range, rounding to binary64 has a relative error of at most
`2 ^ (-53)`. -/
theorem roundToDouble_error (q : ℚ) (hq : (2 : ℚ) ^ (-1022 : ℤ) ≤ q) :
    |roundToDouble q - q| ≤ q * (2 : ℚ) ^ (-53 : ℤ) := by
  have hpos : (0 : ℚ) < q := lt_of_lt_of_le (by positivity) hq
  have hlog : (-1022 : ℤ) ≤ Int.log 2 q :=
    (Int.zpow_le_iff_le_log (by norm_num) hpos).mp (by exact_mod_cast hq)
  unfold roundToDouble
  rw [if_neg (ne_of_gt hpos), abs_of_pos hpos, max_eq_left hlog]
  set e := Int.log 2 q with he
  have hu : (0 : ℚ) < 2 ^ (e - 52) := by positivity
  have hle : (2 : ℚ) ^ e ≤ q := by
    have := Int.zpow_log_le_self (b := 2) (r := q) (by norm_num) hpos
    exact_mod_cast this
  have hr := roundHalfEven_sub_le (q / 2 ^ (e - 52))
  have key : (roundHalfEven (q / 2 ^ (e - 52)) : ℚ) * 2 ^ (e - 52) - q =
      ((roundHalfEven (q / 2 ^ (e - 52)) : ℚ) - q / 2 ^ (e - 52)) * 2 ^ (e - 52) := by
    field_simp
  rw [key, abs_mul, abs_of_pos hu]
  have h53 : (2 : ℚ) ^ (e - 52) * (1 / 2) = 2 ^ e * 2 ^ (-53 : ℤ) := by
    rw [zpow_sub₀ (by norm_num : (2 : ℚ) ≠ 0)]
    norm_num [zpow_neg]
    ring
  calc |(roundHalfEven (q / 2 ^ (e - 52)) : ℚ) - q / 2 ^ (e - 52)| * 2 ^ (e - 52)
      ≤ 1 / 2 * 2 ^ (e - 52) := by
        exact mul_le_mul_of_nonneg_right hr (le_of_lt hu)
    _ = 2 ^ e * 2 ^ (-53 : ℤ) := by rw [mul_comm, h53]
    _ ≤ q * 2 ^ (-53 : ℤ) := by
        exact mul_le_mul_of_nonneg_right hle (by positivity)


/-- The number `0` is a binary64 number. -/
theorem roundToDouble_zero : roundToDouble 0 = 0 := by
  unfold roundToDouble
  rw [if_pos rfl]

/-- The nearest integer to `z + 1/2` rounded down is a nearest integer to any
fraction `a / n` that lies within `1 / (2 n)` of `z`. -/
theorem floor_half_near (z : ℚ) (a n : ℕ) (hn : 0 < n) (d : ℚ)
    (hd : d * (2 * n) < 1) (hz : |z - (a : ℚ) / n| ≤ d) :
    |((⌊z + 1 / 2⌋ : ℤ) : ℚ) - (a : ℚ) / n| ≤ 1 / 2 := by
  have hN : (0 : ℚ) < n := by exact_mod_cast hn
  set H := ⌊z + 1 / 2⌋ with hH
  have f1 : (H : ℚ) ≤ z + 1 / 2 := Int.floor_le _
  have f2 : z + 1 / 2 < (H : ℚ) + 1 := Int.lt_floor_add_one _
  obtain ⟨z1, z2⟩ := abs_le.mp hz
  have hv : (a : ℚ) / n * n = a := by field_simp
  set w := (a : ℚ) / n with hw
  rw [abs_le]
  constructor
  · by_contra hc
    push_neg at hc
    have p1 : 0 < (w - H - 1 / 2) * n := mul_pos (by linarith) hN
    have i1 : (2 * H + 1) * n < (2 * (a : ℤ)) := by
      have : (2 * (H : ℚ) + 1) * n < (2 * (a : ℚ)) := by nlinarith
      exact_mod_cast this
    have i2 : (2 * H + 1) * n + 1 ≤ (2 * (a : ℤ)) := i1
    have i3 : (2 * (H : ℚ) + 1) * n + 1 ≤ (2 * (a : ℚ)) := by exact_mod_cast i2
    have p2 : (w - H - 1 / 2) * (2 * n) < d * (2 * n) :=
      mul_lt_mul_of_pos_right (by linarith) (by linarith)
    nlinarith
  · by_contra hc
    push_neg at hc
    have p1 : 0 < (H - 1 / 2 - w) * n := mul_pos (by linarith) hN
    have i1 : (2 * (a : ℤ)) < (2 * H - 1) * n := by
      have : (2 * (a : ℚ)) < (2 * (H : ℚ) - 1) * n := by nlinarith
      exact_mod_cast this
    have i2 : (2 * (a : ℤ)) + 1 ≤ (2 * H - 1) * n := i1
    have i3 : (2 * (a : ℚ)) + 1 ≤ (2 * (H : ℚ) - 1) * n := by exact_mod_cast i2
    have p2 : (H - 1 / 2 - w) * (2 * n) ≤ d * (2 * n) :=
      mul_le_mul_of_nonneg_right (by linarith) (by linarith)
    nlinarith


/-- For at most `2 ^ 32 - 1` questions, the largest length of a JavaScript
array, the percentage is written from a number of hundredths that is a nearest
integer to `10000 * score / total`. -/
theorem percentage_rounds (s n : Nat) (h1 : 1 ≤ n) (hs : s ≤ n) (hn : n < 2 ^ 32) :
    ∃ h : Nat, percentage s n = fixed2 h ∧ |(h : ℚ) - (10000 * s : ℕ) / n| ≤ 1 / 2 := by
  unfold percentage toFixed2
  rw [if_neg (by omega)]
  refine ⟨_, rfl, ?_⟩
  have hN : (0 : ℚ) < n := by exact_mod_cast h1
  have hn' : n < 4294967296 := hn
  have hN32 : (n : ℚ) < 4294967296 := by exact_mod_cast hn'
  rcases Nat.eq_zero_or_pos s with h0 | hpos
  · subst h0
    simp [roundToDouble_zero]
    norm_num
  · have hS : (1 : ℚ) ≤ s := by exact_mod_cast hpos
    have hSN : (s : ℚ) ≤ n := by exact_mod_cast hs
    set q := (s : ℚ) / n with hq
    have q1 : q ≤ 1 := by rw [hq, div_le_one hN]; exact hSN
    have q0 : (2 : ℚ) ^ (-32 : ℤ) ≤ q := by
      rw [hq, le_div_iff₀ hN]
      have : (2 : ℚ) ^ (-32 : ℤ) = 1 / 4294967296 := by norm_num [zpow_neg]
      rw [this]
      linarith
    have qpos : 0 < q := lt_of_lt_of_le (by positivity) q0
    have e1 := roundToDouble_error q (le_trans (by norm_num [zpow_neg]) q0)
    obtain ⟨e1a, e1b⟩ := abs_le.mp e1
    set x1 := roundToDouble q with hx1
    have u53 : (2 : ℚ) ^ (-53 : ℤ) = 1 / 9007199254740992 := by norm_num [zpow_neg]
    have u32 : (2 : ℚ) ^ (-32 : ℤ) = 1 / 4294967296 := by norm_num [zpow_neg]
    rw [u53] at e1a e1b
    rw [u32] at q0
    have ylow : (2 : ℚ) ^ (-1022 : ℤ) ≤ x1 * 100 := by
      have t1 : (2 : ℚ) ^ (-1022 : ℤ) ≤ 1 / 4294967296 := by norm_num [zpow_neg]
      have t2 : (1 : ℚ) / 4294967296 ≤ x1 * 100 := by linarith
      exact le_trans t1 t2
    have e2 := roundToDouble_error (x1 * 100) ylow
    obtain ⟨e2a, e2b⟩ := abs_le.mp e2
    set x2 := roundToDouble (x1 * 100) with hx2
    rw [u53] at e2a e2b
    have hz : |x2 * 100 - ((10000 * s : ℕ) : ℚ) / n| ≤ 30000 / 9007199254740992 := by
      have : ((10000 * s : ℕ) : ℚ) / n = 10000 * q := by
        rw [hq]; push_cast; ring
      rw [this, abs_le]
      constructor <;> linarith
    have hfl := floor_half_near (x2 * 100) (10000 * s) n h1 (30000 / 9007199254740992)
      (by linarith) hz
    have hnonneg : 0 ≤ ⌊x2 * 100 + 1 / 2⌋ := by
      apply Int.floor_nonneg.mpr
      have : 0 ≤ x2 := by linarith
      linarith
    have hcast : ((⌊x2 * 100 + 1 / 2⌋.toNat : ℕ) : ℚ) = ((⌊x2 * 100 + 1 / 2⌋ : ℤ) : ℚ) := by
      have := Int.toNat_of_nonneg hnonneg
      exact_mod_cast this
    rw [hcast]
    exact hfl

/-! ## Submission log -/

/-- C3 breaks on `blankSession`, a session in progress whose answer to question
`0` is present and is the empty string: the overview of the quiz page counts
the question as answered, yet `handleSubmitQuiz` logs for it the selection
`Not answered` in place of the answer. -/
theorem submit_log_sentinel :
    blankSession.currentPage = Page.quiz ∧ blankSession.answers 0 = some "" ∧
      getQuestionStatus blankSession 0 = QuestionStatus.answered ∧
      (entries (handleSubmitQuiz 1000 (blankSession, Stored.absent)).2)[0]? =
        some (LogEntry.answer_saved "a@b.c" 0 "Q" "Not answered" "A" false 1000) ∧
      (entries (handleSubmitQuiz 1000 (blankSession, Stored.absent)).2)[0]? ≠
        some (LogEntry.answer_saved "a@b.c" 0 "Q" "" "A" false 1000) := by
  refine ⟨rfl, rfl, ?_, ?_, ?_⟩
  · decide
  · decide
  · decide

/-- When every question is answered correctly the score is the number of
questions. -/
theorem handleSubmitQuiz_score_full (s : QuizState)
    (h : ∀ i : Fin s.questions.length,
      s.answers ((i : Nat) : Int) = some (s.questions.get i).correctAnswer) :
    handleSubmitQuiz.score s = s.questions.length := by
  rw [handleSubmitQuiz_score_eq, Finset.filter_true_of_mem (fun i _ => h i)]
  simp

/-- On a readable log store, one call of `handleSubmitQuiz` adds at the end of
the log exactly `N` `answer_saved` events, in index order, the `i`-th with the
prompt and the correct answer of `questions[i]` and a selection that is the
text `Not answered` when `answers[i]` is absent and is `answers[i]` when it is
present and not the empty string; then exactly one `quiz_completed` event with
the score, the total `N` and the percentage. The page becomes the results
page. With `1 ≤ N < 2 ^ 32` the percentage is written from a number of
hundredths nearest to `score / N * 100`, and it is `100.00` when all `N ≥ 1`
questions are answered correctly. -/
theorem handleSubmitQuiz_log (now : Nat) (s : QuizState) (store : Stored)
    (hs : readable store) :
    (∃ selected : Fin s.questions.length → String,
      (∀ i : Fin s.questions.length,
        s.answers ((i : Nat) : Int) = none → selected i = "Not answered") ∧
      (∀ (i : Fin s.questions.length) (a : String),
        s.answers ((i : Nat) : Int) = some a → a ≠ "" → selected i = a) ∧
      entries (handleSubmitQuiz now (s, store)).2 =
        entries store ++
          List.ofFn (fun i : Fin s.questions.length =>
            LogEntry.answer_saved s.email i (s.questions.get i).question (selected i)
              (s.questions.get i).correctAnswer
              (decide (selected i = (s.questions.get i).correctAnswer)) now) ++
          [LogEntry.quiz_completed s.email (handleSubmitQuiz.score s) s.questions.length
            (percentage (handleSubmitQuiz.score s) s.questions.length)
            (handleSubmitQuiz.timeTaken now s) now]) ∧
      (handleSubmitQuiz now (s, store)).1.currentPage = Page.results ∧
      (1 ≤ s.questions.length → s.questions.length < 2 ^ 32 →
        ∃ h : Nat, percentage (handleSubmitQuiz.score s) s.questions.length = fixed2 h ∧
          |(h : ℚ) - (10000 * handleSubmitQuiz.score s : ℕ) / s.questions.length| ≤ 1 / 2) ∧
      (1 ≤ s.questions.length →
        (∀ i : Fin s.questions.length,
          s.answers ((i : Nat) : Int) = some (s.questions.get i).correctAnswer) →
        handleSubmitQuiz.score s = s.questions.length ∧
          percentage (handleSubmitQuiz.score s) s.questions.length = "100.00") := by
  refine ⟨⟨fun i => orElse (s.answers ((i : Nat) : Int)) "Not answered", ?_, ?_, ?_⟩, rfl,
    ?_, ?_⟩
  · intro i h
    simp [h, orElse]
  · intro i a h ha
    simp [h, orElse, ha]
  · rw [(handleSubmitQuiz_entries now s store hs).1, List.append_assoc]
    rfl
  · intro h1 h2
    exact percentage_rounds _ _ h1 (handleSubmitQuiz_score_le s) h2
  · intro h1 hall
    have := handleSubmitQuiz_score_full s hall
    rw [this]
    exact ⟨rfl, percentage_full _ h1⟩

/-! ## Visited questions -/

/-- A navigation call either leaves the state as it is or is a `goToQuestion`
to the index it ends on. -/
theorem NavOp.apply_cases (op : NavOp) (s : QuizState) :
    op.apply s = s ∨ op.apply s = goToQuestion (op.apply s).currentQuestionIndex s := by
  cases op with
  | goTo index => right; rfl
  | next =>
    show nextQuestion s = s ∨ nextQuestion s = goToQuestion (nextQuestion s).currentQuestionIndex s
    unfold nextQuestion
    by_cases h : s.currentQuestionIndex < (s.questions.length : Int) - 1
    · rw [if_pos h]; right; rfl
    · rw [if_neg h]; left; rfl
  | previous =>
    show previousQuestion s = s ∨
      previousQuestion s = goToQuestion (previousQuestion s).currentQuestionIndex s
    unfold previousQuestion
    by_cases h : 0 < s.currentQuestionIndex
    · rw [if_pos h]; right; rfl
    · rw [if_neg h]; left; rfl

/-- On a state whose current index is visited, a navigation call adds the
index it ends on to the visited set and nothing else. -/
theorem NavOp.apply_visited (op : NavOp) (s : QuizState)
    (h : s.currentQuestionIndex ∈ s.visitedQuestions) :
    (op.apply s).visitedQuestions =
      insert (op.apply s).currentQuestionIndex s.visitedQuestions := by
  rcases NavOp.apply_cases op s with h1 | h1
  · rw [h1, Finset.insert_eq_of_mem h]
  · rw [h1]
    rfl

/-- After a run of navigation calls the visited set is the one at the start
together with every value that the current index took. -/
theorem navigate_visited (ops : List NavOp) :
    ∀ s : QuizState, s.currentQuestionIndex ∈ s.visitedQuestions →
      (navigate ops s).visitedQuestions = s.visitedQuestions ∪ (navTrace ops s).toFinset ∧
        (navigate ops s).currentQuestionIndex ∈ (navigate ops s).visitedQuestions := by
  induction ops with
  | nil => intro s h; simp [navigate, navTrace, h]
  | cons op ops ih =>
    intro s h
    have hv := NavOp.apply_visited op s h
    have hm : (op.apply s).currentQuestionIndex ∈ (op.apply s).visitedQuestions := by
      rw [hv]; exact Finset.mem_insert_self _ _
    obtain ⟨h1, h2⟩ := ih (op.apply s) hm
    refine ⟨?_, h2⟩
    rw [navigate, h1, hv, navTrace, List.toFinset_cons]
    ext x
    simp only [Finset.mem_union, Finset.mem_insert]
    tauto

/-- A run of navigation calls extended by one more call. -/
theorem navigate_append (ops : List NavOp) (op : NavOp) :
    ∀ s : QuizState, navigate (ops ++ [op]) s = op.apply (navigate ops s) := by
  induction ops with
  | nil => intro s; rfl
  | cons o os ih => intro s; exact ih (o.apply s)

/-- C11: from a fresh session (visited set `{0}`, current index `0`), after
every finite sequence of `goToQuestion`, `nextQuestion` and `previousQuestion`
calls the visited set is `{0}` together with every value that the current
index took along the way, it contains the current index, and no call removes
a member: the visited set after one more call contains the one before. -/
theorem visited_after_navigation (s : QuizState) (ops : List NavOp)
    (hv : s.visitedQuestions = {0}) (hc : s.currentQuestionIndex = 0) :
    (navigate ops s).visitedQuestions = insert 0 (navTrace ops s).toFinset ∧
      (navigate ops s).currentQuestionIndex ∈ (navigate ops s).visitedQuestions ∧
      ∀ op : NavOp,
        (navigate ops s).visitedQuestions ⊆ (navigate (ops ++ [op]) s).visitedQuestions := by
  have h0 : s.currentQuestionIndex ∈ s.visitedQuestions := by
    rw [hv, hc]; exact Finset.mem_singleton_self 0
  obtain ⟨h1, h2⟩ := navigate_visited ops s h0
  refine ⟨?_, h2, ?_⟩
  · rw [h1, hv]
    ext x
    simp only [Finset.mem_union, Finset.mem_singleton, Finset.mem_insert]
  · intro op
    rw [navigate_append, NavOp.apply_visited op _ h2]
    exact Finset.subset_insert _ _

/-- C11 on the sample session and the calls `goTo 3`, `previous`, `next`. -/
theorem visited_after_navigation_witness :
    sampleSession.visitedQuestions = {0} ∧ sampleSession.currentQuestionIndex = 0 ∧
      (navigate [NavOp.goTo 3, NavOp.previous, NavOp.next] sampleSession).visitedQuestions =
        insert 0 (navTrace [NavOp.goTo 3, NavOp.previous, NavOp.next] sampleSession).toFinset :=
  ⟨rfl, rfl,
    (visited_after_navigation sampleSession [NavOp.goTo 3, NavOp.previous, NavOp.next]
      rfl rfl).1⟩

/-! ## Phase -/

/-- C12, as stated, fails: on `resultsSession`, whose page is the results page,
each of the five operations changes the state, and on the start page of the
initial state `selectAnswer` and `goToQuestion` do. -/
theorem operations_outside_quiz :
    resultsSession.currentPage = Page.results ∧
      (selectAnswer "B" resultsSession).answers 0 ≠ resultsSession.answers 0 ∧
      (clearAnswer resultsSession).answers 0 ≠ resultsSession.answers 0 ∧
      (goToQuestion 1 resultsSession).currentQuestionIndex ≠
        resultsSession.currentQuestionIndex ∧
      (nextQuestion resultsSession).currentQuestionIndex ≠
        resultsSession.currentQuestionIndex ∧
      (goToQuestion 1 resultsSession).currentPage = Page.results ∧
      (previousQuestion (goToQuestion 1 resultsSession)).currentQuestionIndex ≠
        (goToQuestion 1 resultsSession).currentQuestionIndex ∧
      initialState.currentPage = Page.start ∧
      (selectAnswer "A" initialState).answers 0 ≠ initialState.answers 0 ∧
      (goToQuestion 1 initialState).visitedQuestions ≠ initialState.visitedQuestions := by
  refine ⟨rfl, ?_, ?_, ?_, ?_, rfl, ?_, rfl, ?_, ?_⟩ <;> decide

/-- C12, amended: the five operations make no test of the phase. Each acts on a
state of any page exactly as it acts on the same state with another page, and
leaves the page, the email, the question list, the time left and the start
time as they are: `selectAnswer` still sets the answer of the current index,
`clearAnswer` still removes it, `goToQuestion` still moves the current index
and marks it visited, and `nextQuestion` and `previousQuestion` still move
unless the current index is at their boundary. -/
theorem operations_ignore_phase (s : QuizState) (p : Page) (a : String) (index : Int) :
    (selectAnswer a { s with currentPage := p } = { selectAnswer a s with currentPage := p } ∧
      clearAnswer { s with currentPage := p } = { clearAnswer s with currentPage := p } ∧
      goToQuestion index { s with currentPage := p } =
        { goToQuestion index s with currentPage := p } ∧
      nextQuestion { s with currentPage := p } = { nextQuestion s with currentPage := p } ∧
      previousQuestion { s with currentPage := p } =
        { previousQuestion s with currentPage := p }) ∧
      ((selectAnswer a s).answers s.currentQuestionIndex = some a ∧
        (clearAnswer s).answers s.currentQuestionIndex = none ∧
        (goToQuestion index s).currentQuestionIndex = index ∧
        index ∈ (goToQuestion index s).visitedQuestions ∧
        (s.currentQuestionIndex < (s.questions.length : Int) - 1 →
          (nextQuestion s).currentQuestionIndex = s.currentQuestionIndex + 1) ∧
        (0 < s.currentQuestionIndex →
          (previousQuestion s).currentQuestionIndex = s.currentQuestionIndex - 1)) ∧
      ∀ f : QuizState → QuizState,
        f = selectAnswer a ∨ f = clearAnswer ∨ f = goToQuestion index ∨ f = nextQuestion ∨
          f = previousQuestion →
        (f s).currentPage = s.currentPage ∧ (f s).email = s.email ∧
          (f s).questions = s.questions ∧ (f s).timeRemaining = s.timeRemaining ∧
          (f s).quizStartTime = s.quizStartTime := by
  refine ⟨⟨rfl, rfl, rfl, ?_, ?_⟩, ⟨?_, ?_, rfl, Finset.mem_insert_self _ _, ?_, ?_⟩, ?_⟩
  · unfold nextQuestion
    by_cases h : s.currentQuestionIndex < (s.questions.length : Int) - 1
    · rw [if_pos h, if_pos (by exact h)]; rfl
    · rw [if_neg h, if_neg (by exact h)]
  · unfold previousQuestion
    by_cases h : 0 < s.currentQuestionIndex
    · rw [if_pos h, if_pos (by exact h)]; rfl
    · rw [if_neg h, if_neg (by exact h)]
  · simp [selectAnswer]
  · simp [clearAnswer]
  · intro h; unfold nextQuestion; rw [if_pos h]; rfl
  · intro h; unfold previousQuestion; rw [if_pos h]; rfl
  · rintro f (rfl | rfl | rfl | rfl | rfl)
    · exact ⟨rfl, rfl, rfl, rfl, rfl⟩
    · exact ⟨rfl, rfl, rfl, rfl, rfl⟩
    · exact ⟨rfl, rfl, rfl, rfl, rfl⟩
    · unfold nextQuestion; split <;> exact ⟨rfl, rfl, rfl, rfl, rfl⟩
    · unfold previousQuestion; split <;> exact ⟨rfl, rfl, rfl, rfl, rfl⟩

/-- The amended C12 on `resultsSession`: `nextQuestion` moves from index `0` to
index `1` on the results page. -/
theorem operations_ignore_phase_witness :
    resultsSession.currentQuestionIndex < (resultsSession.questions.length : Int) - 1 ∧
      (nextQuestion resultsSession).currentQuestionIndex =
        resultsSession.currentQuestionIndex + 1 :=
  ⟨by decide,
    (operations_ignore_phase resultsSession Page.results "A" 0).2.1.2.2.2.2.1 (by decide)⟩

/-! ## Event log round trip -/

/-- On a readable store, `getLogs` after `addLog` returns the events read
before, in the same order, followed by the stamped entry; the events read
before are none when the key is absent or its content does not parse. -/
theorem getLogs_addLog (now : Nat) (e : LogRecord) (store : Stored) (h : readable store) :
    StorageManager.getLogs store = Parsed.array (entries store) ∧
      StorageManager.getLogs (StorageManager.addLog now e store) =
        Parsed.array (entries store ++ [e now]) ∧
      entries Stored.absent = [] ∧ entries Stored.unparsable = [] := by
  unfold readable at h
  unfold StorageManager.addLog entries
  cases hg : StorageManager.getLogs store with
  | array logs => exact ⟨rfl, rfl, rfl, rfl⟩
  | notArray => exact absurd hg h

/-- C13 breaks on a stored value that parses but is not an array, such as the
text of an object: `getLogs` returns that value, the `push` of `addLog` throws,
the error is caught and nothing is written, so `getLogs` after `addLog`
returns the same value and no event has been added. -/
theorem addLog_notArray_dropped (now : Nat) (e : LogRecord) :
    StorageManager.getLogs (Stored.parsed Parsed.notArray) = Parsed.notArray ∧
      StorageManager.addLog now e (Stored.parsed Parsed.notArray) =
        Stored.parsed Parsed.notArray ∧
      StorageManager.getLogs (StorageManager.addLog now e (Stored.parsed Parsed.notArray)) =
        StorageManager.getLogs (Stored.parsed Parsed.notArray) ∧
      entries (StorageManager.addLog now e (Stored.parsed Parsed.notArray)) = [] ∧
      ¬ readable (Stored.parsed Parsed.notArray) := by
  refine ⟨rfl, rfl, rfl, rfl, ?_⟩
  intro h
  exact h rfl

/-! ## Shuffle -/

/-- Exchanging two positions of a list rearranges it. -/
theorem swap_perm {α : Type} [DecidableEq α] (array : List α) (i j : Nat) :
    (swap array i j).Perm array := by
  unfold swap
  cases hi : array[i]? with
  | none => exact List.Perm.refl _
  | some x =>
    cases hj : array[j]? with
    | none => exact List.Perm.refl _
    | some y =>
      obtain ⟨hil, hix⟩ := List.getElem?_eq_some_iff.mp hi
      obtain ⟨hjl, hjy⟩ := List.getElem?_eq_some_iff.mp hj
      show ((array.set i y).set j x).Perm array
      rw [List.perm_iff_count]
      intro a
      have hjl' : j < (array.set i y).length := by rw [List.length_set]; exact hjl
      rw [List.count_set _ _ _ _ hjl', List.count_set _ _ _ _ hil]
      have hget : (array.set i y)[j] = y := by
        rw [List.getElem_set]
        split
        · rfl
        · exact hjy
      rw [hget, hix]
      have hx : (if (x == a) = true then 1 else 0) ≤ array.count a := by
        by_cases hxa : x = a
        · subst hxa
          have hm : x ∈ array := hix ▸ List.getElem_mem _
          have hc := List.count_pos_iff.mpr hm
          rw [if_pos (beq_self_eq_true x)]
          exact hc
        · simp [hxa]
      omega

/-- The loop of `shuffleArray` rearranges the list. -/
theorem shuffleLoop_perm {α : Type} [DecidableEq α] (rand : Nat → Nat) :
    ∀ (i : Nat) (array : List α), (shuffleLoop rand i array).Perm array := by
  intro i
  induction i with
  | zero => intro array; exact List.Perm.refl _
  | succ n ih =>
    intro array
    rw [shuffleLoop]
    exact (ih _).trans (swap_perm _ _ _)

/-- For every stream of random draws `shuffleArray` returns a rearrangement of
its argument. -/
theorem shuffleArray_perm {α : Type} [DecidableEq α] (rand : Nat → Nat) (array : List α) :
    (shuffleArray rand array).Perm array :=
  shuffleLoop_perm rand _ array


/-- A relation that holds between every element and its image holds between
the list and its indexed map. -/
theorem mapIdxFrom_forall₂ {α β : Type} (f : Nat → α → β) (R : β → α → Prop) (xs : List α) :
    (∀ k x, x ∈ xs → R (f k x) x) → ∀ k, List.Forall₂ R (mapIdxFrom f k xs) xs := by
  induction xs with
  | nil => intro _ k; exact List.Forall₂.nil
  | cons x xs ih =>
    intro h k
    rw [mapIdxFrom]
    exact List.Forall₂.cons (h k x (List.mem_cons_self _ _))
      (ih (fun k y hy => h k y (List.mem_cons_of_mem _ hy)) (k + 1))

/-- In every built-in record the answers are pairwise distinct and hold the
correct answer once. -/
theorem fallbackList_answers :
    ∀ b ∈ fallbackList, b.allAnswers.Nodup ∧ b.allAnswers.count b.correctAnswer = 1 := by
  decide

/-- C14: for every outcome of the random draws `getFallbackQuestions` returns
exactly 15 records, in the order of the built-in list; each keeps the prompt
and the correct answer of its built-in record, and its candidate answers are a
rearrangement of the built-in answers (the same elements, the same length),
hence pairwise distinct strings that hold the correct answer exactly once.
The built-in list is a constant, so it is not modified. -/
theorem getFallbackQuestions_spec (random : Nat → Nat → Nat) :
    (getFallbackQuestions random).length = 15 ∧
      List.Forall₂
        (fun q b =>
          q.question = b.question ∧ q.correctAnswer = b.correctAnswer ∧
            q.allAnswers.Perm b.allAnswers ∧ q.allAnswers.length = b.allAnswers.length ∧
            q.allAnswers.Nodup ∧ q.allAnswers.count q.correctAnswer = 1)
        (getFallbackQuestions random) fallbackList := by
  have h : List.Forall₂
      (fun (q : Question) (b : FallbackQuestion) =>
        q.question = b.question ∧ q.correctAnswer = b.correctAnswer ∧
          q.allAnswers.Perm b.allAnswers ∧ q.allAnswers.length = b.allAnswers.length ∧
          q.allAnswers.Nodup ∧ q.allAnswers.count q.correctAnswer = 1)
      (getFallbackQuestions random) fallbackList := by
    unfold getFallbackQuestions
    apply mapIdxFrom_forall₂
    intro k b hb
    have hp := shuffleArray_perm (random k) b.allAnswers
    obtain ⟨hn, hc⟩ := fallbackList_answers b hb
    refine ⟨rfl, rfl, hp, hp.length_eq, hp.nodup_iff.mpr hn, ?_⟩
    show (shuffleArray (random k) b.allAnswers).count b.correctAnswer = 1
    rw [hp.count_eq]
    exact hc
  refine ⟨?_, h⟩
  rw [h.length_eq]
  rfl

/-! ## Correctness flags in the log -/

/-- A score of zero is shown as `0.00`. -/
theorem percentage_zero (n : Nat) (h : 1 ≤ n) : percentage 0 n = "0.00" := by
  unfold percentage
  rw [if_neg (by omega)]
  have e : ((0 : ℕ) : ℚ) / (n : ℚ) = 0 := by simp
  rw [e, roundToDouble_zero, zero_mul, roundToDouble_zero]
  unfold toFixed2
  have : ⌊(0 : ℚ) * 100 + 1 / 2⌋ = 0 := by
    rw [Int.floor_eq_iff]; norm_num
  rw [this]
  decide

/-- C15 breaks on `sentinelSession`: its one question has the correct answer
`Not answered` and no answer is given. The score is `0`, and the completion is
logged with score `0`, yet the one answer event is logged with the selection
`Not answered` and `isCorrect = true`. -/
theorem sentinel_logged_correct :
    sentinelSession.answers 0 = none ∧
      handleSubmitQuiz.score sentinelSession = 0 ∧
      entries (handleSubmitQuiz 1000 (sentinelSession, Stored.absent)).2 =
        [LogEntry.answer_saved "a@b.c" 0 "Q" "Not answered" "Not answered" true 1000,
          LogEntry.quiz_completed "a@b.c" 0 1 "0.00" 1 1000] ∧
      (entries (handleSubmitQuiz 1000 (sentinelSession, Stored.absent)).2).countP
        LogEntry.isCorrectAnswer = 1 := by
  have h : entries (handleSubmitQuiz 1000 (sentinelSession, Stored.absent)).2 =
      [LogEntry.answer_saved "a@b.c" 0 "Q" "Not answered" "Not answered" true 1000,
        LogEntry.quiz_completed "a@b.c" 0 1 (percentage 0 1) 1 1000] := by
    rfl
  rw [percentage_zero 1 (le_refl 1)] at h
  refine ⟨rfl, by decide, h, ?_⟩
  rw [h]
  decide


/-- The number of entries of `List.ofFn f` that satisfy a test. -/
theorem countP_ofFn {α : Type} (p : α → Bool) :
    ∀ (n : Nat) (f : Fin n → α),
      (List.ofFn f).countP p = (Finset.univ.filter (fun i : Fin n => p (f i) = true)).card := by
  intro n
  induction n with
  | zero => intro f; simp
  | succ n ih =>
    intro f
    rw [List.ofFn_succ, List.countP_cons, ih, Finset.card_filter, Finset.card_filter,
      Fin.sum_univ_succ]
    omega

/-- Unless the correct answer is the text `Not answered` or the empty string,
the logged selection equals it exactly when the answer given does. -/
theorem orElse_eq_iff (v : Option String) (c : String) (h1 : c ≠ "Not answered")
    (h2 : c ≠ "") : orElse v "Not answered" = c ↔ v = some c := by
  unfold orElse
  cases v with
  | none => simp; exact fun h => h1 h.symm
  | some a =>
    by_cases ha : a = ""
    · subst ha
      simp
      exact ⟨fun h => absurd h.symm h1, fun h => absurd h.symm h2⟩
    · simp [ha]

/-- When no correct answer is the text `Not answered` or the empty string, the
number of answer events that one submission logs with `isCorrect = true` is
the score, and a question without an answer is logged with
`isCorrect = false`. -/
theorem submitEvents_correct_count (now : Nat) (s : QuizState)
    (h : ∀ q ∈ s.questions, q.correctAnswer ≠ "Not answered" ∧ q.correctAnswer ≠ "") :
    (submitEvents now s).countP LogEntry.isCorrectAnswer = handleSubmitQuiz.score s ∧
      ∀ i : Fin s.questions.length, s.answers ((i : Nat) : Int) = none →
        decide (orElse (s.answers ((i : Nat) : Int)) "Not answered" =
          (s.questions.get i).correctAnswer) = false := by
  constructor
  · unfold submitEvents
    rw [List.countP_append, countP_ofFn, handleSubmitQuiz_score_eq]
    simp only [LogEntry.isCorrectAnswer, List.countP_cons, List.countP_nil, decide_eq_true_eq]
    have e : ∀ i : Fin s.questions.length,
        (orElse (s.answers ((i : Nat) : Int)) "Not answered" = (s.questions.get i).correctAnswer)
          ↔ s.answers ((i : Nat) : Int) = some (s.questions.get i).correctAnswer := by
      intro i
      obtain ⟨h1, h2⟩ := h _ (List.get_mem _ _ _)
      exact orElse_eq_iff _ _ h1 h2
    simp only [e]
    simp
  · intro i hi
    obtain ⟨h1, h2⟩ := h _ (List.get_mem _ _ _)
    rw [decide_eq_false_iff_not, orElse_eq_iff _ _ h1 h2, hi]
    exact fun hc => Option.noConfusion hc

end QuizApp
